import Mathlib

/-!
Verification of the dead-code detection pipeline
(`dead-code-detection-demo`): shallow embedding of the analyzer,
tracker, injector, reconciliation and removal scripts, with theorems
settling the specified properties.

Conventions of the embedding:
* Python strings are Lean `String`s; the Python substring test
  `needle in hay` is `containsStr hay needle` below.
* Timestamps (`datetime.utcnow()` values, compared via their ISO-8601
  renderings, which order chronologically) are modelled as `Int`
  seconds since an epoch; `timedelta(days=d)` is `d * 86400`.
* Confidence scores are stored in exact tenths (`Nat`): the Python
  float 0.3 is 3, the cap 1.0 is 10, the threshold 0.6 is 6.  Every
  score the scorer produces is a sum of constants from
  {0.2, 0.3, 0.4} capped at 1.0, and each comparison the claims make
  (.= 0, .>= 0.5, .>= 0.6) is exact both in this encoding and in the
  IEEE-754 doubles the Python code adds.
* Fallible calls to the external store are modelled as an
  `Except String` outcome supplied by the environment.
-/

/-- Python's substring test `needle in hay` on strings: some rotation of
`hay` starts with `needle`. -/
def containsStr (hay needle : String) : Bool :=
  (List.range (hay.toList.length + 1)).any
    (fun i => needle.toList.isPrefixOf (hay.toList.drop i))

theorem containsStr_iff (hay needle : String) :
    containsStr hay needle = true ↔ List.IsInfix needle.toList hay.toList := by
  unfold containsStr
  simp only [List.any_eq_true, List.mem_range]
  constructor
  · rintro ⟨i, _, hp⟩
    exact ((List.isPrefixOf_iff_prefix.mp hp).isInfix).trans
      (List.drop_suffix i hay.toList).isInfix
  · rintro ⟨s, t, h⟩
    refine ⟨s.length, ?_, List.isPrefixOf_iff_prefix.mpr ⟨t, ?_⟩⟩
    · have : (s ++ needle.toList ++ t).length = hay.toList.length := by rw [h]
      simp only [List.length_append] at this
      omega
    · have hd : hay.toList.drop s.length = needle.toList ++ t := by
        rw [← h, List.append_assoc, List.drop_left]
      rw [hd]

/-- Transitivity of the substring test, used to pass from
"the declaration `def name` occurs in the file" to "`name` occurs in the
file". -/
theorem containsStr_trans {a b c : String}
    (hab : containsStr a b = true) (hbc : containsStr b c = true) :
    containsStr a c = true := by
  rw [containsStr_iff] at *
  exact hbc.trans hab

/-!
## Reconciliation (`scripts/check_dead_code.py`)

`check_dead_code` queries the store for active tombstones of a project
registered before `now - days`, then for events whose `tombstone_id` is
among those tombstones, and keeps the tombstones with no event.
The store tables are modelled as in-memory lists of rows.
-/

/-- Row of the `tombstones` table (fields of the record built by
`register_tombstone`). -/
structure TombstoneRow where
  tombstone_id : String
  project_name : String
  function_name : String
  file_path : String
  line_number : Nat
  reason : String
  registered_at : Int
  status : String
deriving DecidableEq, Repr

/-- Row of the `tombstone_events` table (fields used by reconciliation:
the foreign key and the event timestamp). -/
structure TombstoneEventRow where
  tombstone_id : String
  triggered_at : Int
deriving DecidableEq, Repr

/-- Embedding of `check_dead_code` (scripts/check_dead_code.py, lines
37-77): filter the `tombstones` table by project, `active` status and
`registered_at < now - timedelta(days)`; short-circuit on the empty
list; fetch the events whose `tombstone_id` is among the remaining
tombstones; return the tombstones whose id is in no fetched event. -/
def check_dead_code (tombstones : List TombstoneRow)
    (events : List TombstoneEventRow) (project_name : String)
    (days : Int) (now : Int) : List TombstoneRow :=
  let cutoff_date := now - days * 86400
  let active := tombstones.filter (fun t =>
    t.project_name == project_name && t.status == "active" &&
      decide (t.registered_at < cutoff_date))
  if active.isEmpty then []
  else
    let tombstone_ids := active.map (·.tombstone_id)
    let triggered_ids :=
      (events.filter (fun e => tombstone_ids.contains e.tombstone_id)).map
        (·.tombstone_id)
    active.filter (fun t => !(triggered_ids.contains t.tombstone_id))

/-- Specification-side reconciliation: the pure set difference
`records - (records referenced by any event)` over the active tombstones
registered more than `days` days before `now`. -/
def confirmedDeadSpec (tombstones : List TombstoneRow)
    (events : List TombstoneEventRow) (project_name : String)
    (days : Int) (now : Int) : List TombstoneRow :=
  tombstones.filter (fun t =>
    t.project_name == project_name && t.status == "active" &&
      decide (t.registered_at < now - days * 86400) &&
      !(events.any (fun e => e.tombstone_id == t.tombstone_id)))

/-- Scenario tombstone of the spec: registered at T0 = 0. -/
def scenarioTombstone : TombstoneRow :=
  { tombstone_id := "tid-1", project_name := "demo",
    function_name := "legacy_helper", file_path := "app.py",
    line_number := 10, reason := "Potentially unused code",
    registered_at := 0, status := "active" }

/-- Scenario event of the spec: one event at T0 + 1 day. -/
def scenarioEvent : TombstoneEventRow :=
  { tombstone_id := "tid-1", triggered_at := 86400 }

theorem filter_and_split {α : Type} (l : List α) (p q : α → Bool) :
    l.filter (fun a => p a && q a) = (l.filter p).filter q := by
  rw [List.filter_filter]
  apply List.filter_congr
  intro a _
  exact Bool.and_comm _ _

theorem reconcile_filter_eq (active : List TombstoneRow)
    (es : List TombstoneEventRow) :
    active.filter (fun t =>
      !(((es.filter (fun e =>
            (active.map (·.tombstone_id)).contains e.tombstone_id)).map
          (·.tombstone_id)).contains t.tombstone_id)) =
    active.filter (fun t =>
      !(es.any (fun e => e.tombstone_id == t.tombstone_id))) := by
  apply List.filter_congr
  intro t ht
  congr 1
  apply Bool.coe_iff_coe.mp
  simp only [List.elem_iff, List.mem_map, List.mem_filter, List.any_eq_true,
    beq_iff_eq]
  constructor
  · rintro ⟨e, ⟨he, _⟩, heq⟩
    exact ⟨e, he, heq⟩
  · rintro ⟨e, he, heq⟩
    refine ⟨e, ⟨he, ?_⟩, heq⟩
    rw [heq]
    exact ⟨t, ht, rfl⟩

/-- C1: reconciliation is a pure set difference.  For every project name
and minimum age, `check_dead_code` returns exactly the active tombstones
of the project registered more than `days` days before the query time
for which no event with the same `tombstone_id` exists.  In particular,
a tombstone registered at T0 with one event at T0 + 1 day is excluded
from the confirmed-dead result at T0 + 10 days with a 7-day window, and
the same tombstone with no events at all is included. -/
theorem check_dead_code_is_set_difference :
    (∀ (tombstones : List TombstoneRow) (events : List TombstoneEventRow)
        (project_name : String) (days now : Int),
      check_dead_code tombstones events project_name days now =
        confirmedDeadSpec tombstones events project_name days now) ∧
    check_dead_code [scenarioTombstone] [scenarioEvent] "demo" 7 864000 = [] ∧
    check_dead_code [scenarioTombstone] [] "demo" 7 864000 =
      [scenarioTombstone] := by
  refine ⟨?_, by decide, by decide⟩
  intro ts es p d n
  simp only [check_dead_code, confirmedDeadSpec]
  conv_rhs => rw [filter_and_split]
  by_cases h : (ts.filter (fun t =>
      t.project_name == p && t.status == "active" &&
        decide (t.registered_at < n - d * 86400))).isEmpty
  · rw [if_pos h]
    rw [List.isEmpty_iff] at h
    rw [h]
    rfl
  · rw [if_neg h]
    exact reconcile_filter_eq _ _


/-!
## Runtime tracker (`tombstone/tracker.py`)

`TombstoneTracker.tombstone` wraps a callable: on every invocation the
wrapper computes the tombstone id, builds a `TombstoneEvent`, runs
`_record_event` (which returns a `Bool` and swallows every store
failure), and then calls the original function, returning its value.

The wrapped callable is modelled as `α → Except ε β` (exceptions are
`Except.error`); the store insert is an `Except String Unit` outcome
supplied by the environment.  The tracker configuration records whether
`dry_run` was set and whether a Supabase client was configured
(`SUPABASE_AVAILABLE` and url/key present).
-/

/-- Configuration of a `TombstoneTracker` instance. -/
structure TrackerConfig where
  project_name : String
  dry_run : Bool
  has_client : Bool
deriving DecidableEq, Repr

/-- Static metadata of a wrapped function: the optional `name` override
given to the decorator, `func.__name__`, `func.__code__.co_filename`,
`func.__code__.co_firstlineno`, and the decorator's `reason`. -/
structure FuncMeta where
  name_override : Option String
  func_name : String
  file_path : String
  line_number : Nat
  reason : String
deriving DecidableEq, Repr

/-- Event constructed by the wrapper (the `TombstoneEvent` dataclass;
its `context` map holds the reason). -/
structure TrackedEvent where
  tombstone_id : String
  function_name : String
  file_path : String
  line_number : Nat
  context_reason : String
deriving DecidableEq, Repr

/-- Embedding of `TombstoneTracker._generate_tombstone_id`: the id is a
stable hash of `f"{project}:{file}:{name}:{line}"`.  The sha256-prefix
hexdigest is modelled by its preimage content string (the model only
relies on the hash being a deterministic function of the content). -/
def generate_tombstone_id (project_name function_name file_path : String)
    (line_number : Nat) : String :=
  project_name ++ ":" ++ file_path ++ ":" ++ function_name ++ ":" ++
    toString line_number

/-- Event built on each call of the wrapper (tracker.py, lines
130-148): the function name is the decorator's `name` override if any,
else `func.__name__`. -/
def wrapper_event (cfg : TrackerConfig) (m : FuncMeta) : TrackedEvent :=
  let function_name := m.name_override.getD m.func_name
  { tombstone_id := generate_tombstone_id cfg.project_name function_name
      m.file_path m.line_number,
    function_name := function_name,
    file_path := m.file_path,
    line_number := m.line_number,
    context_reason := m.reason }

/-- Embedding of `TombstoneTracker._record_event` (tracker.py, lines
83-108): dry-run prints and reports `true`; without a configured client
it prints and reports `false`; otherwise the insert's outcome decides
the report, and an insert exception is caught (reported as `false`),
never re-raised. -/
def record_event (cfg : TrackerConfig) (insert_outcome : Except String Unit)
    (_event : TrackedEvent) : Bool :=
  if cfg.dry_run then true
  else if !cfg.has_client then false
  else
    match insert_outcome with
    | .ok _ => true
    | .error _ => false

/-- Events that actually reach the store table on one call: none in
dry-run mode or without a client, and the constructed event exactly when
the insert succeeds. -/
def record_event_emits (cfg : TrackerConfig)
    (insert_outcome : Except String Unit) (event : TrackedEvent) :
    List TrackedEvent :=
  if cfg.dry_run then []
  else if !cfg.has_client then []
  else
    match insert_outcome with
    | .ok _ => [event]
    | .error _ => []

/-- Embedding of the `wrapper` closure produced by
`TombstoneTracker.tombstone` (tracker.py, lines 130-152): build the
event, run the record step, then execute the original function and
return its result.  The returned pair is (result of the wrapped call,
report of the record step). -/
def wrapper {α β ε : Type} (cfg : TrackerConfig) (m : FuncMeta)
    (insert_outcome : Except String Unit) (func : α → Except ε β)
    (args : α) : Except ε β × Bool :=
  let event := wrapper_event cfg m
  let recorded := record_event cfg insert_outcome event
  (func args, recorded)

/-- Store-visible event trace of a sequence of calls to one instrumented
element within a process: the wrapper is stateless, so each call emits
independently according to its insert outcome. -/
def process_trace (cfg : TrackerConfig) (m : FuncMeta)
    (outcomes : List (Except String Unit)) : List TrackedEvent :=
  (outcomes.map (fun o => record_event_emits cfg o (wrapper_event cfg m))).flatten

/-- C3: tracker transparency.  For every wrapped callable and argument,
the wrapper returns exactly the result of the original call (value or
exception), whatever the store outcome; the record step's report is the
swallowed `_record_event` result; and with the store unconfigured
(`has_client = false`, no dry-run) the record step reports `false`
while the wrapped call still runs and its result is unchanged. -/
theorem tombstone_wrapper_transparent :
    ∀ {α β ε : Type} (cfg : TrackerConfig) (m : FuncMeta)
      (insert_outcome : Except String Unit) (func : α → Except ε β)
      (args : α),
      (wrapper cfg m insert_outcome func args).1 = func args ∧
      (wrapper cfg m insert_outcome func args).2 =
        record_event cfg insert_outcome (wrapper_event cfg m) ∧
      (∀ (pn : String),
        (wrapper ⟨pn, false, false⟩ m insert_outcome func args).2 = false ∧
        (wrapper ⟨pn, false, false⟩ m insert_outcome func args).1 =
          func args) := by
  intro α β ε cfg m insert_outcome func args
  exact ⟨rfl, rfl, fun pn => ⟨rfl, rfl⟩⟩

/-- Configuration of the counterexample run: no dry-run, client
configured. -/
def liveTracker : TrackerConfig :=
  { project_name := "demo", dry_run := false, has_client := true }

/-- Metadata of the counterexample element. -/
def demoMeta : FuncMeta :=
  { name_override := none, func_name := "legacy_helper",
    file_path := "/app/app.py", line_number := 10,
    reason := "Potentially unused code" }

/-- C6 counterexample: two calls to the same instrumented element in one
process, both with a successful store insert, emit two events with the
same tombstone identity — not at most one per process per identity. -/
theorem tracker_no_per_process_dedup :
    (process_trace liveTracker demoMeta [Except.ok (), Except.ok ()]).map
        (·.tombstone_id) =
      [generate_tombstone_id "demo" "legacy_helper" "/app/app.py" 10,
       generate_tombstone_id "demo" "legacy_helper" "/app/app.py" 10] ∧
    1 < (process_trace liveTracker demoMeta
          [Except.ok (), Except.ok ()]).length := by
  exact ⟨rfl, by decide⟩

theorem process_trace_cons (cfg : TrackerConfig) (m : FuncMeta)
    (o : Except String Unit) (rest : List (Except String Unit)) :
    process_trace cfg m (o :: rest) =
      record_event_emits cfg o (wrapper_event cfg m) ++
        process_trace cfg m rest := rfl

/-- C6 amended: the wrapper is stateless — every call attempts the
record step, and with a configured client outside dry-run each
successful insert emits one event, so `n` successful calls emit `n`
events for the same identity; dry-run and unconfigured trackers emit
nothing to the store. -/
theorem tracker_emits_one_event_per_call :
    ∀ (pn : String) (m : FuncMeta) (outcomes : List (Except String Unit)),
      process_trace ⟨pn, false, true⟩ m outcomes =
        List.replicate
          (outcomes.filter (fun o =>
            match o with | .ok _ => true | .error _ => false)).length
          (wrapper_event ⟨pn, false, true⟩ m) ∧
      process_trace ⟨pn, true, true⟩ m outcomes = [] ∧
      process_trace ⟨pn, false, false⟩ m outcomes = [] := by
  intro pn m outcomes
  refine ⟨?_, ?_, ?_⟩
  · induction outcomes with
    | nil => rfl
    | cons o rest ih =>
      rw [process_trace_cons]
      cases o with
      | ok u =>
        have h1 : record_event_emits ⟨pn, false, true⟩ (Except.ok u)
            (wrapper_event ⟨pn, false, true⟩ m) =
            [wrapper_event ⟨pn, false, true⟩ m] := rfl
        have h2 : List.filter (fun o : Except String Unit =>
              match o with | .ok _ => true | .error _ => false)
            (Except.ok u :: rest) =
            Except.ok u :: List.filter (fun o : Except String Unit =>
              match o with | .ok _ => true | .error _ => false) rest := rfl
        rw [h1, h2, ih, List.length_cons, List.replicate_succ,
          List.singleton_append]
      | error e =>
        have h1 : record_event_emits ⟨pn, false, true⟩ (Except.error e)
            (wrapper_event ⟨pn, false, true⟩ m) = [] := rfl
        have h2 : List.filter (fun o : Except String Unit =>
              match o with | .ok _ => true | .error _ => false)
            (Except.error e :: rest) =
            List.filter (fun o : Except String Unit =>
              match o with | .ok _ => true | .error _ => false) rest := rfl
        rw [h1, h2, ih, List.nil_append]
  · induction outcomes with
    | nil => rfl
    | cons o rest ih =>
      rw [process_trace_cons]
      have h1 : record_event_emits ⟨pn, true, true⟩ o
          (wrapper_event ⟨pn, true, true⟩ m) = [] := rfl
      rw [h1, ih, List.nil_append]
  · induction outcomes with
    | nil => rfl
    | cons o rest ih =>
      rw [process_trace_cons]
      have h1 : record_event_emits ⟨pn, false, false⟩ o
          (wrapper_event ⟨pn, false, false⟩ m) = [] := rfl
      rw [h1, ih, List.nil_append]

/-!
## Instrumentation injector (`scripts/analyze_and_tombstone.py`)

`add_tombstone_decorator` edits a file held as a list of lines (modelled
without their trailing newline characters, which none of the logic
inspects).  It is always called with a 1-based `ast` line number, so the
model assumes `line_number ≥ 1` (Python would index from the end of the
list on 0, which no caller produces).
-/

/-- Python `s.startswith(pre)`. -/
def strStartsWith (s pre : String) : Bool :=
  pre.toList.isPrefixOf s.toList

/-- Python `list.insert(i, x)`: insert before position `i`, clamping to
the end of the list. -/
def insertAt {α : Type} (l : List α) (i : Nat) (x : α) : List α :=
  l.take i ++ [x] ++ l.drop i

/-- Test of the loop `line.startswith("import ") or
line.startswith("from ")`. -/
def isImportLine (l : String) : Bool :=
  strStartsWith l "import " || strStartsWith l "from "

/-- Embedding of the import-position scan (analyze_and_tombstone.py,
lines 74-77): over the first 30 lines, remember (last matching index)
+ 1, starting from 0. -/
def last_import_idx (lines : List String) : Nat :=
  (List.range (min 30 lines.length)).foldl
    (fun acc i => if isImportLine (lines.getD i "") then i + 1 else acc) 0

/-- Count of lines carrying the tracking marker. -/
def count_tombstone_markers (lines : List String) : Nat :=
  (lines.filter (fun l => containsStr l "@tombstone")).length

/-- The decorator line inserted by the injector: the declaration's
indentation followed by `@tombstone(reason="...")`. -/
def decorator_line_for (indent : Nat) (reason : String) : String :=
  String.mk (List.replicate indent ' ') ++
    ("@tombstone(reason=\"" ++ reason ++ "\")")

/-- Embedding of `add_tombstone_decorator` (analyze_and_tombstone.py,
lines 26-93): bounds-check the 1-based declaration line; skip (returning
`False` and editing nothing) when the preceding line already carries
`@tombstone`; in dry-run report `True` without editing; otherwise insert
the decorator line before the declaration, and when no tombstone import
appears in the first 20 lines insert `from tombstone import tombstone`
after the last import of the first 30 lines (with a blank line after it
when there is no import block).  Returns (reported success, resulting
file). -/
def add_tombstone_decorator (lines : List String) (line_number : Nat)
    (reasons : List String) (dry_run : Bool) : Bool × List String :=
  let line_idx := line_number - 1
  if lines.length ≤ line_idx then (false, lines)
  else
    let line := lines.getD line_idx ""
    if 0 < line_idx && containsStr (lines.getD (line_idx - 1) "") "@tombstone"
    then (false, lines)
    else
      let indent := line.toList.length -
        (line.toList.dropWhile (·.isWhitespace)).length
      let reason := reasons.headD "Potentially unused code"
      let decorator_line := decorator_line_for indent reason
      if dry_run then (true, lines)
      else
        let lines1 := insertAt lines line_idx decorator_line
        let has_import := (lines1.take 20).any (fun l =>
          containsStr l "from tombstone import" ||
            containsStr l "import tombstone")
        if has_import then (true, lines1)
        else
          let import_idx := last_import_idx lines1
          let lines2 := insertAt lines1 import_idx
            "from tombstone import tombstone"
          if import_idx == 0 then (true, insertAt lines2 1 "")
          else (true, lines2)

theorem insertAt_length {α : Type} (l : List α) (i : Nat) (x : α)
    (hi : i ≤ l.length) : (insertAt l i x).length = l.length + 1 := by
  simp [insertAt]
  omega

theorem insertAt_getD_lt {α : Type} (l : List α) (i : Nat) (x : α)
    (j : Nat) (d : α) (hi : i ≤ l.length) (h : j < i) :
    (insertAt l i x).getD j d = l.getD j d := by
  have h1 : insertAt l i x = l.take i ++ ([x] ++ l.drop i) := by
    simp [insertAt]
  rw [h1, List.getD_append _ _ _ _ (by simp [List.length_take]; omega)]
  unfold List.getD
  rw [List.get?_take h]

theorem insertAt_getD_self {α : Type} (l : List α) (i : Nat) (x : α) (d : α)
    (hi : i ≤ l.length) : (insertAt l i x).getD i d = x := by
  have h1 : insertAt l i x = l.take i ++ ([x] ++ l.drop i) := by
    simp [insertAt]
  rw [h1, List.getD_append_right _ _ _ _ (by simp)]
  have h2 : i - (l.take i).length = 0 := by
    simp [List.length_take]
    omega
  rw [h2]
  rfl

theorem insertAt_getD_succ {α : Type} (l : List α) (i : Nat) (x : α)
    (j : Nat) (d : α) (hi : i ≤ l.length) (h : i ≤ j) :
    (insertAt l i x).getD (j + 1) d = l.getD j d := by
  have h1 : insertAt l i x = l.take i ++ ([x] ++ l.drop i) := by
    simp [insertAt]
  have hlen : (l.take i).length = i := by
    simp [List.length_take]
    omega
  rw [h1, List.getD_append_right _ _ _ _ (by rw [hlen]; omega)]
  rw [hlen]
  have h2 : j + 1 - i = (j - i) + 1 := by omega
  rw [h2]
  have h3 : ([x] ++ l.drop i).getD ((j - i) + 1) d =
      (l.drop i).getD (j - i) d := by
    rfl
  rw [h3]
  unfold List.getD
  rw [List.get?_drop]
  have h4 : i + (j - i) = j := by omega
  rw [h4]

theorem count_markers_insertAt (l : List String) (i : Nat) (x : String) :
    count_tombstone_markers (insertAt l i x) =
      count_tombstone_markers l +
        (if containsStr x "@tombstone" = true then 1 else 0) := by
  unfold count_tombstone_markers insertAt
  rw [List.filter_append, List.filter_append, List.length_append,
    List.length_append]
  have hld : (l.take i).filter (fun l => containsStr l "@tombstone") ++
      (l.drop i).filter (fun l => containsStr l "@tombstone") =
      l.filter (fun l => containsStr l "@tombstone") := by
    rw [← List.filter_append, List.take_append_drop]
  have hcnt : ((l.take i).filter (fun l => containsStr l "@tombstone")).length
      + ((l.drop i).filter (fun l => containsStr l "@tombstone")).length =
      (l.filter (fun l => containsStr l "@tombstone")).length := by
    rw [← List.length_append, hld]
  by_cases hx : containsStr x "@tombstone" = true
  · rw [if_pos hx]
    have : [x].filter (fun l => containsStr l "@tombstone") = [x] := by
      simp [List.filter, hx]
    rw [this]
    simp only [List.length_singleton]
    omega
  · rw [if_neg hx]
    have : [x].filter (fun l => containsStr l "@tombstone") = [] := by
      simp [List.filter]
      rw [Bool.of_not_eq_true hx]
    rw [this]
    simp only [List.length_nil]
    omega

theorem decorator_contains_marker (ind : Nat) (r : String) :
    containsStr (decorator_line_for ind r) "@tombstone" = true := by
  rw [containsStr_iff]
  refine ⟨List.replicate ind ' ', ("(reason=\"" ++ r ++ "\")").toList, ?_⟩
  have h : (decorator_line_for ind r).toList =
      List.replicate ind ' ' ++
        ("@tombstone".toList ++ (("(reason=\"" ++ r ++ "\")").toList)) := rfl
  rw [h, ← List.append_assoc]

theorem strStartsWith_false_of_head (s pre : String)
    (hpre : pre.toList ≠ []) (h : s.toList.head? ≠ pre.toList.head?) :
    strStartsWith s pre = false := by
  unfold strStartsWith
  by_contra hc
  have hp : List.IsPrefix pre.toList s.toList :=
    List.isPrefixOf_iff_prefix.mp (Bool.not_eq_false _ |>.mp hc)
  rcases hp with ⟨t, ht⟩
  rcases List.exists_cons_of_ne_nil hpre with ⟨c, cs, hcs⟩
  apply h
  rw [← ht, hcs]
  rfl

theorem isImportLine_decorator (ind : Nat) (r : String) :
    isImportLine (decorator_line_for ind r) = false := by
  unfold isImportLine
  have h1 : strStartsWith (decorator_line_for ind r) "import " = false := by
    apply strStartsWith_false_of_head
    · simp
    · cases ind with
      | zero => simp [decorator_line_for]
      | succ k =>
        have : (decorator_line_for (k+1) r).toList.head? = some ' ' := rfl
        rw [this]
        simp
  have h2 : strStartsWith (decorator_line_for ind r) "from " = false := by
    apply strStartsWith_false_of_head
    · simp
    · cases ind with
      | zero => simp [decorator_line_for]
      | succ k =>
        have : (decorator_line_for (k+1) r).toList.head? = some ' ' := rfl
        rw [this]
        simp
  rw [h1, h2]
  rfl

theorem last_import_foldl_char (l : List String) (idxs : List Nat) (a : Nat)
    (ha : a = 0 ∨ (0 < a ∧ isImportLine (l.getD (a - 1) "") = true)) :
    idxs.foldl (fun acc i =>
        if isImportLine (l.getD i "") then i + 1 else acc) a = 0 ∨
      (0 < idxs.foldl (fun acc i =>
          if isImportLine (l.getD i "") then i + 1 else acc) a ∧
        isImportLine (l.getD (idxs.foldl (fun acc i =>
          if isImportLine (l.getD i "") then i + 1 else acc) a - 1) "") =
          true) := by
  induction idxs generalizing a with
  | nil => exact ha
  | cons i rest ih =>
    rw [List.foldl_cons]
    by_cases hi : isImportLine (l.getD i "") = true
    · rw [if_pos hi]
      exact ih _ (Or.inr ⟨Nat.succ_pos i, by simpa using hi⟩)
    · rw [if_neg hi]
      exact ih _ ha

theorem last_import_idx_char (lines : List String) :
    last_import_idx lines = 0 ∨
      (0 < last_import_idx lines ∧
        isImportLine (lines.getD (last_import_idx lines - 1) "") = true) := by
  unfold last_import_idx
  exact last_import_foldl_char lines _ 0 (Or.inl rfl)

theorem add_tombstone_skips_marked (lines2 : List String) (d : Nat)
    (hd : d < lines2.length) (hd1 : 0 < d)
    (hm : containsStr (lines2.getD (d - 1) "") "@tombstone" = true)
    (reasons₂ : List String) (dry₂ : Bool) :
    add_tombstone_decorator lines2 (d + 1) reasons₂ dry₂ = (false, lines2) := by
  unfold add_tombstone_decorator
  simp only [Nat.add_sub_cancel]
  rw [if_neg (by omega)]
  rw [if_pos]
  rw [Bool.and_eq_true]
  exact ⟨decide_eq_true hd1, hm⟩

theorem isImportLine_empty : isImportLine "" = false := by decide

theorem import_line_no_marker :
    containsStr "from tombstone import tombstone" "@tombstone" = false := by
  decide

theorem blank_line_no_marker : containsStr "" "@tombstone" = false := by decide

/-- C9: injector idempotence.  Part one: if a `@tombstone` marker
already precedes the declaration line, the injector skips with no edit.
Part two: a first non-dry-run edit of an unmarked declaration reports
success, adds exactly one tracking marker, and leaves the declaration at
a position `d` directly preceded by the marker, so that a second run on
the re-analyzed candidate (declaration now at 1-based line `d + 1`)
skips and makes no edit. -/
theorem injector_idempotent :
    (∀ (lines : List String) (n : Nat) (reasons : List String) (dry : Bool),
      n - 1 < lines.length → 0 < n - 1 →
      containsStr (lines.getD (n - 1 - 1) "") "@tombstone" = true →
      add_tombstone_decorator lines n reasons dry = (false, lines)) ∧
    (∀ (lines : List String) (n : Nat) (reasons : List String),
      1 ≤ n → n - 1 < lines.length →
      (0 < n - 1 →
        containsStr (lines.getD (n - 1 - 1) "") "@tombstone" = false) →
      (add_tombstone_decorator lines n reasons false).1 = true ∧
      count_tombstone_markers
          (add_tombstone_decorator lines n reasons false).2 =
        count_tombstone_markers lines + 1 ∧
      ∃ d : Nat, 0 < d ∧
        d < (add_tombstone_decorator lines n reasons false).2.length ∧
        (add_tombstone_decorator lines n reasons false).2.getD d "" =
          lines.getD (n - 1) "" ∧
        ∀ (reasons₂ : List String) (dry₂ : Bool),
          add_tombstone_decorator
              (add_tombstone_decorator lines n reasons false).2 (d + 1)
              reasons₂ dry₂ =
            (false, (add_tombstone_decorator lines n reasons false).2)) := by
  constructor
  · intro lines n reasons dry hlt hpos hmark
    have hn : n = (n - 1) + 1 := by omega
    rw [hn]
    exact add_tombstone_skips_marked lines (n - 1) hlt hpos hmark reasons dry
  · intro lines n reasons h1 hlt hnomark
    have hn : (n - 1) + 1 = n := by omega
    have hlen' : ¬(lines.length ≤ n - 1) := by omega
    have hguard : ¬((decide (0 < n - 1) &&
        containsStr (lines.getD (n - 1 - 1) "") "@tombstone") = true) := by
      rcases Nat.eq_zero_or_pos (n - 1) with h0 | h0
      · simp [h0]
      · rw [hnomark h0]
        simp
    set dec := decorator_line_for
      ((lines.getD (n - 1) "").toList.length -
        ((lines.getD (n - 1) "").toList.dropWhile (·.isWhitespace)).length)
      (reasons.headD "Potentially unused code") with hdec
    set L1 := insertAt lines (n - 1) dec with hL1
    have hstep : add_tombstone_decorator lines n reasons false =
        (if (L1.take 20).any (fun l =>
            containsStr l "from tombstone import" ||
              containsStr l "import tombstone")
         then (true, L1)
         else if last_import_idx L1 == 0
           then (true, insertAt
             (insertAt L1 (last_import_idx L1)
               "from tombstone import tombstone") 1 "")
           else (true, insertAt L1 (last_import_idx L1)
             "from tombstone import tombstone")) := by
      rw [hL1, hdec]
      unfold add_tombstone_decorator
      rw [if_neg hlen', if_neg hguard, if_neg (by simp : ¬(false = true))]
    have hidxle : n - 1 ≤ lines.length := by omega
    have hL1len : L1.length = lines.length + 1 := by
      rw [hL1]
      exact insertAt_length _ _ _ hidxle
    have hdef1 : L1.getD n "" = lines.getD (n - 1) "" := by
      rw [hL1, ← hn]
      exact insertAt_getD_succ _ _ _ _ _ hidxle (le_refl _)
    have hdec1 : L1.getD (n - 1) "" = dec := by
      rw [hL1]
      exact insertAt_getD_self _ _ _ _ hidxle
    have hdecmark : containsStr dec "@tombstone" = true := by
      rw [hdec]
      exact decorator_contains_marker _ _
    have hcount1 : count_tombstone_markers L1 =
        count_tombstone_markers lines + 1 := by
      rw [hL1, count_markers_insertAt, if_pos hdecmark]
    rw [hstep]
    by_cases hhi : ((L1.take 20).any (fun l =>
        containsStr l "from tombstone import" ||
          containsStr l "import tombstone")) = true
    · rw [if_pos hhi]
      dsimp only
      refine ⟨rfl, hcount1, n, by omega, by omega, hdef1, ?_⟩
      intro reasons₂ dry₂
      apply add_tombstone_skips_marked
      · omega
      · omega
      · rw [hdec1]
        exact hdecmark
    · rw [if_neg hhi]
      by_cases hk0 : (last_import_idx L1 == 0) = true
      · rw [if_pos hk0]
        dsimp only
        have hk0' : last_import_idx L1 = 0 := by simpa using hk0
        rw [hk0']
        set L2 := insertAt L1 0 "from tombstone import tombstone" with hL2
        set L3 := insertAt L2 1 "" with hL3
        have hL2len : L2.length = lines.length + 2 := by
          rw [hL2, insertAt_length _ _ _ (by omega), hL1len]
        have hL3len : L3.length = lines.length + 3 := by
          rw [hL3, insertAt_length _ _ _ (by omega), hL2len]
        have hd3 : L3.getD (n + 2) "" = lines.getD (n - 1) "" := by
          have e1 : L3.getD ((n + 1) + 1) "" = L2.getD (n + 1) "" := by
            rw [hL3]
            exact insertAt_getD_succ _ _ _ _ _ (by omega) (by omega)
          have e2 : L2.getD (n + 1) "" = L1.getD n "" := by
            rw [hL2]
            exact insertAt_getD_succ _ _ _ _ _ (by omega) (by omega)
          calc L3.getD (n + 2) "" = L2.getD (n + 1) "" := e1
            _ = L1.getD n "" := e2
            _ = lines.getD (n - 1) "" := hdef1
        have hm3 : L3.getD (n + 1) "" = dec := by
          have e1 : L3.getD (n + 1) "" = L2.getD n "" := by
            rw [hL3, ← hn]
            exact insertAt_getD_succ _ _ _ _ _ (by omega) (by omega)
          have e2 : L2.getD n "" = L1.getD (n - 1) "" := by
            rw [hL2, ← hn]
            exact insertAt_getD_succ _ _ _ _ _ (by omega) (by omega)
          rw [e1, e2, hdec1]
        have hcount3 : count_tombstone_markers L3 =
            count_tombstone_markers lines + 1 := by
          rw [hL3, count_markers_insertAt, if_neg (by
            rw [blank_line_no_marker]; simp)]
          rw [hL2, count_markers_insertAt, if_neg (by
            rw [import_line_no_marker]; simp)]
          rw [hcount1]
        refine ⟨rfl, hcount3, n + 2, by omega, by omega, hd3, ?_⟩
        intro reasons₂ dry₂
        apply add_tombstone_skips_marked
        · omega
        · omega
        · show containsStr (L3.getD (n + 1) "") "@tombstone" = true
          rw [hm3]
          exact hdecmark
      · rw [if_neg hk0]
        dsimp only
        have hkne : last_import_idx L1 ≠ 0 := by simpa using hk0
        rcases last_import_idx_char L1 with hc | ⟨hkpos, hkimp⟩
        · exact absurd hc hkne
        set k := last_import_idx L1 with hkdef
        have hkb : k ≤ L1.length := by
          by_contra hkb
          have hge : L1.length ≤ k - 1 := by omega
          rw [List.getD_eq_default _ _ hge] at hkimp
          rw [isImportLine_empty] at hkimp
          exact Bool.false_ne_true hkimp
        have hkn : k ≠ n := by
          intro hkn
          have : L1.getD (k - 1) "" = dec := by
            rw [hkn, ← hn, Nat.add_sub_cancel]
            exact hdec1
          rw [this, hdec, isImportLine_decorator] at hkimp
          exact Bool.false_ne_true hkimp
        set L2 := insertAt L1 k "from tombstone import tombstone" with hL2
        have hL2len : L2.length = lines.length + 2 := by
          rw [hL2, insertAt_length _ _ _ hkb, hL1len]
        have hcount2 : count_tombstone_markers L2 =
            count_tombstone_markers lines + 1 := by
          rw [hL2, count_markers_insertAt, if_neg (by
            rw [import_line_no_marker]; simp)]
          rw [hcount1]
        by_cases hkle : k ≤ n - 1
        · have hd2 : L2.getD (n + 1) "" = lines.getD (n - 1) "" := by
            have e1 : L2.getD (n + 1) "" = L1.getD n "" := by
              rw [hL2]
              exact insertAt_getD_succ _ _ _ _ _ hkb (by omega)
            rw [e1, hdef1]
          have hm2 : L2.getD n "" = dec := by
            have e1 : L2.getD n "" = L1.getD (n - 1) "" := by
              rw [hL2, ← hn]
              exact insertAt_getD_succ _ _ _ _ _ hkb (by omega)
            rw [e1, hdec1]
          refine ⟨rfl, hcount2, n + 1, by omega, by omega, hd2, ?_⟩
          intro reasons₂ dry₂
          apply add_tombstone_skips_marked
          · omega
          · omega
          · rw [show n + 1 - 1 = n from rfl, hm2]
            exact hdecmark
        · have hkgt : n + 1 ≤ k := by omega
          have hd2 : L2.getD n "" = lines.getD (n - 1) "" := by
            have e1 : L2.getD n "" = L1.getD n "" := by
              rw [hL2]
              exact insertAt_getD_lt _ _ _ _ _ hkb (by omega)
            rw [e1, hdef1]
          have hm2 : L2.getD (n - 1) "" = dec := by
            have e1 : L2.getD (n - 1) "" = L1.getD (n - 1) "" := by
              rw [hL2]
              exact insertAt_getD_lt _ _ _ _ _ hkb (by omega)
            rw [e1, hdec1]
          refine ⟨rfl, hcount2, n, by omega, by omega, hd2, ?_⟩
          intro reasons₂ dry₂
          apply add_tombstone_skips_marked
          · omega
          · omega
          · rw [hm2]
            exact hdecmark

/-- Witness for `injector_idempotent`: a marked two-line file is skipped
unchanged, and a fresh one-function file reports a successful edit. -/
theorem injector_idempotent_witness :
    add_tombstone_decorator ["@tombstone(reason=\"x\")", "def legacy():"] 2
        ["r"] false =
      (false, ["@tombstone(reason=\"x\")", "def legacy():"]) ∧
    (add_tombstone_decorator ["def legacy():", "    pass"] 1 ["r"] false).1 =
      true :=
  ⟨injector_idempotent.1 _ 2 _ false (by decide) (by decide) (by decide),
   (injector_idempotent.2 _ 1 _ (by decide) (by decide)
      (fun h => absurd h (by decide))).1⟩

/-- Candidate element as consumed by the injector loop (the fields of
`CodeElement` that `main` in analyze_and_tombstone.py reads). -/
structure CandidateElement where
  name : String
  element_type : String
  file_path : String
  line_number : Nat
  reasons : List String
deriving DecidableEq, Repr

/-- Lookup of a file's lines in the working tree, modelled as an
association list path → lines. -/
def lookupFile (files : List (String × List String)) (p : String) :
    Option (List String) :=
  (files.find? (fun f => f.1 == p)).map (·.2)

/-- Write-back of a file's lines. -/
def updateFile (files : List (String × List String)) (p : String)
    (newLines : List String) : List (String × List String) :=
  files.map (fun f => if f.1 == p then (p, newLines) else f)

/-- One iteration of the instrumentation loop of `main`
(analyze_and_tombstone.py, lines 167-175): only functions and methods
are edited; a reported successful edit increments the change counter.
A missing file makes `add_tombstone_decorator` fail (exception caught,
`False`), editing nothing. -/
def injector_step (dry_run : Bool) (st : Nat × List (String × List String))
    (el : CandidateElement) : Nat × List (String × List String) :=
  if el.element_type == "function" || el.element_type == "method" then
    match lookupFile st.2 el.file_path with
    | none => st
    | some lines =>
      let r := add_tombstone_decorator lines el.line_number el.reasons dry_run
      if r.1 then (st.1 + 1, updateFile st.2 el.file_path r.2)
      else (st.1, updateFile st.2 el.file_path r.2)
  else st

/-- Embedding of the instrumentation phase of `main`
(analyze_and_tombstone.py, lines 167-186): iterate the selected
candidates (capped at `max_changes`) through `injector_step`.  The
returned third component is the list of upsert-tombstone store calls the
loop performs — the loop's body contains none, so it is empty. -/
def analyze_and_tombstone_main (candidates : List CandidateElement)
    (max_changes : Nat) (files : List (String × List String))
    (dry_run : Bool) :
    Nat × List (String × List String) × List TombstoneRow :=
  let sel := candidates.take max_changes
  let st := sel.foldl (injector_step dry_run) (0, files)
  (st.1, st.2, [])

/-- Embedding of `TombstoneTracker.register_tombstone` (tracker.py,
lines 162-200): the library routine that, given a configured client and
a successful upsert, sends a record with `status = "active"`.  Returns
(reported success, records sent to the store). -/
def register_tombstone (cfg : TrackerConfig)
    (upsert_outcome : Except String Unit) (tombstone_id : String)
    (function_name : String) (file_path : String) (line_number : Nat)
    (reason : String) (now : Int) : Bool × List TombstoneRow :=
  if cfg.dry_run then (true, [])
  else if !cfg.has_client then (false, [])
  else
    match upsert_outcome with
    | .ok _ => (true,
        [{ tombstone_id := tombstone_id, project_name := cfg.project_name,
           function_name := function_name, file_path := file_path,
           line_number := line_number, reason := reason,
           registered_at := now, status := "active" }])
    | .error _ => (false, [])

/-- Demo candidate whose edit succeeds. -/
def demoCandidate : CandidateElement :=
  { name := "legacy_helper", element_type := "function",
    file_path := "app.py", line_number := 1,
    reasons := ["Name contains 'legacy'"] }

/-- C4: the injector's main loop performs no upsert-tombstone store call
at all — even for a candidate whose non-dry-run edit succeeds (the demo
run makes one successful edit and zero store calls) — although the
library's `register_tombstone` (which `main` never invokes) would send a
record with status `active`.  This contradicts the script's own module
docstring ("3. Registers the tombstones in Supabase for tracking"). -/
theorem injector_never_calls_upsert :
    (∀ (candidates : List CandidateElement) (max_changes : Nat)
        (files : List (String × List String)) (dry_run : Bool),
      (analyze_and_tombstone_main candidates max_changes files
        dry_run).2.2 = []) ∧
    (analyze_and_tombstone_main [demoCandidate] 10
        [("app.py", ["def legacy_helper():", "    pass"])] false).1 = 1 ∧
    (∀ (pn tid fn fp : String) (ln : Nat) (rsn : String) (now : Int),
      (register_tombstone ⟨pn, false, true⟩ (Except.ok ()) tid fn fp ln rsn
          now).2.map (·.status) = ["active"]) := by
  refine ⟨fun _ _ _ _ => rfl, by decide, fun _ _ _ _ _ _ _ => rfl⟩

/-!
## Static analyzer (`tombstone/analyzer.py`)

Python files are modelled as a path, a raw source text, and the parsed
tree (`ast.parse` output restricted to the node kinds the analyzer
inspects: function definitions, class definitions, and other statements
with their child subtrees).  `ast.walk` is the breadth-first traversal
of all nodes.
-/

/-- Abstract syntax node of a parsed Python file, as far as the analyzer
reads it: `ast.FunctionDef` and `ast.ClassDef` carry name, extracted
docstring (`ast.get_docstring`), 1-based line number and child
statements; every other statement only contributes its children to the
walk. -/
inductive PyAst where
  | functionDef (name : String) (docstring : Option String) (lineno : Nat)
      (body : List PyAst)
  | classDef (name : String) (docstring : Option String) (lineno : Nat)
      (body : List PyAst)
  | otherStmt (children : List PyAst)

/-- Direct child nodes (`ast.iter_child_nodes` restricted to the
modelled statement children). -/
def childrenOf : PyAst → List PyAst
  | .functionDef _ _ _ body => body
  | .classDef _ _ _ body => body
  | .otherStmt children => children

mutual

def astSize : PyAst → Nat
  | .functionDef _ _ _ body => 1 + astSizeList body
  | .classDef _ _ _ body => 1 + astSizeList body
  | .otherStmt children => 1 + astSizeList children

def astSizeList : List PyAst → Nat
  | [] => 0
  | x :: xs => astSize x + astSizeList xs

end

theorem astSizeList_append (a b : List PyAst) :
    astSizeList (a ++ b) = astSizeList a + astSizeList b := by
  induction a with
  | nil => simp [astSizeList]
  | cons x xs ih =>
    show astSize x + astSizeList (xs ++ b) =
      astSize x + astSizeList xs + astSizeList b
    rw [ih]
    omega

theorem childrenOf_size_lt (n : PyAst) :
    astSizeList (childrenOf n) < astSize n := by
  cases n <;> simp [childrenOf, astSize]

theorem astSize_pos (n : PyAst) : 1 ≤ astSize n := by
  cases n <;> simp [astSize]

/-- Fuel-indexed breadth-first traversal; the fuel only serves as a
structural termination measure and is irrelevant whenever it is at
least the total node count of the queue (`walkBFSAux_congr`). -/
def walkBFSAux : Nat → List PyAst → List PyAst
  | _, [] => []
  | 0, _ :: _ => []
  | fuel + 1, node :: queue => node :: walkBFSAux fuel (queue ++ childrenOf node)

/-- Embedding of `ast.walk`: breadth-first traversal yielding every
node, starting from a queue of root nodes (for a module, its top-level
statements — the `Module` node itself produces no element). -/
def walkBFS (q : List PyAst) : List PyAst :=
  walkBFSAux (astSizeList q) q

theorem walkBFSAux_congr : ∀ (fuel₁ fuel₂ : Nat) (q : List PyAst),
    astSizeList q ≤ fuel₁ → astSizeList q ≤ fuel₂ →
    walkBFSAux fuel₁ q = walkBFSAux fuel₂ q := by
  intro fuel₁
  induction fuel₁ with
  | zero =>
    intro fuel₂ q h1 h2
    cases q with
    | nil => cases fuel₂ <;> rfl
    | cons n rest =>
      exfalso
      have := astSize_pos n
      simp only [astSizeList] at h1
      omega
  | succ f ih =>
    intro fuel₂ q h1 h2
    cases q with
    | nil => cases fuel₂ <;> rfl
    | cons n rest =>
      cases fuel₂ with
      | zero =>
        exfalso
        have := astSize_pos n
        simp only [astSizeList] at h2
        omega
      | succ f₂ =>
        simp only [walkBFSAux]
        congr 1
        apply ih
        · have ha := astSizeList_append rest (childrenOf n)
          have hc := childrenOf_size_lt n
          simp only [astSizeList] at h1
          omega
        · have ha := astSizeList_append rest (childrenOf n)
          have hc := childrenOf_size_lt n
          simp only [astSizeList] at h2
          omega

theorem walkBFS_nil : walkBFS [] = [] := rfl

theorem walkBFS_cons (node : PyAst) (queue : List PyAst) :
    walkBFS (node :: queue) = node :: walkBFS (queue ++ childrenOf node) := by
  unfold walkBFS
  have h1 : astSizeList (node :: queue) =
      astSize node + astSizeList queue := rfl
  have hpos := astSize_pos node
  have hstep : walkBFSAux (astSizeList (node :: queue)) (node :: queue) =
      node :: walkBFSAux (astSizeList (node :: queue) - 1)
        (queue ++ childrenOf node) := by
    rw [h1]
    have : astSize node + astSizeList queue =
        (astSize node + astSizeList queue - 1) + 1 := by omega
    rw [this]
    rfl
  rw [hstep]
  congr 1
  apply walkBFSAux_congr
  · have ha := astSizeList_append queue (childrenOf node)
    have hc := childrenOf_size_lt node
    omega
  · exact le_refl _

/-- Element record of the analyzer (`CodeElement` dataclass); the
confidence score is stored in exact tenths of the Python float. -/
structure CodeElement where
  name : String
  element_type : String
  file_path : String
  line_number : Nat
  docstring : Option String
  is_private : Bool
  is_dunder : Bool
  references_count : Nat
  confidence : Nat
  reasons : List String
deriving DecidableEq, Repr

/-- Python `s.endswith(suf)`. -/
def strEndsWith (s suf : String) : Bool :=
  suf.toList.isSuffixOf s.toList

/-- Embedding of `CodeAnalyzer._create_element_from_function`
(analyzer.py, lines 151-173). -/
def create_element_from_function (name : String) (docstring : Option String)
    (lineno : Nat) (file_path : String) (class_name : Option String) :
    CodeElement :=
  { name := (match class_name with
      | some c => c ++ "." ++ name
      | none => name),
    element_type := if class_name.isSome then "method" else "function",
    file_path := file_path,
    line_number := lineno,
    docstring := docstring,
    is_private := strStartsWith name "_" && !(strStartsWith name "__"),
    is_dunder := strStartsWith name "__" && strEndsWith name "__",
    references_count := 0,
    confidence := 0,
    reasons := [] }

/-- Embedding of `CodeAnalyzer._create_element_from_class` (analyzer.py,
lines 175-191).  Note: this constructor never sets `is_dunder`, which
keeps its dataclass default `False`. -/
def create_element_from_class (name : String) (docstring : Option String)
    (lineno : Nat) (file_path : String) : CodeElement :=
  { name := name,
    element_type := "class",
    file_path := file_path,
    line_number := lineno,
    docstring := docstring,
    is_private := strStartsWith name "_" && !(strStartsWith name "__"),
    is_dunder := false,
    references_count := 0,
    confidence := 0,
    reasons := [] }

/-- Elements contributed by one walked node (the loop body of
`_analyze_file`, analyzer.py lines 132-146): a function node yields one
unqualified function element; a class node yields one class element and
one qualified method element per function in its direct body. -/
def elementsFromNode (rel_path : String) : PyAst → List CodeElement
  | .functionDef name doc lineno _ =>
      [create_element_from_function name doc lineno rel_path none]
  | .classDef cname cdoc clineno body =>
      create_element_from_class cname cdoc clineno rel_path ::
        body.filterMap (fun item =>
          match item with
          | .functionDef m mdoc mline _ =>
              some (create_element_from_function m mdoc mline rel_path
                (some cname))
          | _ => none)
  | .otherStmt _ => []

/-- Embedding of `CodeAnalyzer._analyze_file` (analyzer.py, lines
123-149): collect elements over the breadth-first walk of the tree. -/
def analyze_file (rel_path : String) (tree : List PyAst) :
    List CodeElement :=
  (walkBFS tree).flatMap (elementsFromNode rel_path)

/-- A source file as the analyzer sees it: relative path, raw text, and
parse tree. -/
structure PyFile where
  path : String
  source : String
  tree : List PyAst

/-- Python `name.split(".")` at the character level (faithful to
`str.split` on a single-character separator: groups between dots,
including empty groups). -/
def splitDot : List Char → List (List Char)
  | [] => [[]]
  | ch :: rest =>
    match splitDot rest with
    | [] => [[]]
    | g :: gs => if ch = '.' then [] :: g :: gs else (ch :: g) :: gs

/-- Embedding of `element.name.split(".")[-1]`. -/
def baseName (name : String) : String :=
  String.mk ((splitDot name.toList).getLastD [])

/-- Embedding of `CodeAnalyzer._find_references` accumulated over all
files (analyzer.py, lines 193-210): the set of file paths whose source
contains the element's base name as a substring. -/
def referencing_files (files : List PyFile) (name : String) :
    List String :=
  ((files.filter (fun f => containsStr f.source (baseName name))).map
    (·.path)).dedup

/-- The analyzer's keyword list (`DEAD_CODE_KEYWORDS`). -/
def DEAD_CODE_KEYWORDS : List String :=
  ["deprecated", "legacy", "old", "unused", "obsolete",
   "todo: remove", "fixme: remove", "to be removed",
   "no longer used", "not used", "dead code"]

/-- Python `str.lower()` (ASCII case folding, which covers every string
the analyzer compares). -/
def strLower (s : String) : String :=
  String.mk (s.toList.map Char.toLower)

/-- Embedding of `CodeAnalyzer._calculate_confidence` (analyzer.py,
lines 212-258): dunder elements are forced to confidence 0 with a fixed
reason and the routine returns before touching `references_count`;
otherwise the four additive heuristics apply in order (first matching
keyword only, per the loop `break`s) and the total is capped at 1
(10 tenths). -/
def calculate_confidence (files : List PyFile) (element : CodeElement) :
    CodeElement :=
  if element.is_dunder then
    { element with
      confidence := 0
      reasons := ["Dunder method - likely framework hook"] }
  else
    let name_lower := strLower element.name
    let s1r1 : Nat × List String :=
      match DEAD_CODE_KEYWORDS.find? (fun kw => containsStr name_lower kw)
      with
      | some kw => (3, ["Name contains '" ++ kw ++ "'"])
      | none => (0, [])
    let s2r2 : Nat × List String :=
      match element.docstring with
      | some doc =>
        match DEAD_CODE_KEYWORDS.find?
            (fun kw => containsStr (strLower doc) kw) with
        | some kw => (4, ["Docstring mentions '" ++ kw ++ "'"])
        | none => (0, [])
      | none => (0, [])
    let refs := referencing_files files element.name
    let s3r3 : Nat × List String :=
      if refs.length == 0 then (3, ["No references found in codebase"])
      else if refs.length == 1 && refs.contains element.file_path then
        (2, ["Only referenced in its own file"])
      else (0, [])
    let s4r4 : Nat × List String :=
      if element.is_private && decide (refs.length ≤ 1) then
        (2, ["Private function with limited references"])
      else (0, [])
    { element with
      references_count := refs.length
      confidence := min (s1r1.1 + s2r2.1 + s3r3.1 + s4r4.1) 10
      reasons := s1r1.2 ++ s2r2.2 ++ s3r3.2 ++ s4r4.2 }

/-- Stable insertion into a descending-confidence list: the inserted
element comes from earlier in the original order, so it goes before any
element of equal confidence. -/
def insertDesc (x : CodeElement) : List CodeElement → List CodeElement
  | [] => [x]
  | y :: ys =>
    if x.confidence < y.confidence then y :: insertDesc x ys
    else x :: y :: ys

/-- Stable sort by descending confidence (extensionally the sort
performed by Python's stable `list.sort(key=confidence,
reverse=True)`). -/
def sortByConfidenceDesc : List CodeElement → List CodeElement
  | [] => []
  | x :: xs => insertDesc x (sortByConfidenceDesc xs)

/-- Embedding of `CodeAnalyzer.analyze` (analyzer.py, lines 63-88):
inventory pass over every file, reference pass, scoring pass, then a
stable sort by descending confidence. -/
def analyze (files : List PyFile) : List CodeElement :=
  let elements := files.flatMap (fun f => analyze_file f.path f.tree)
  let scored := elements.map (calculate_confidence files)
  sortByConfidenceDesc scored

/-- One-class one-method file for the inventory counterexample. -/
def classMethodFile : PyFile :=
  { path := "app.py",
    source := "class C:\n    def m(self):\n        pass\n",
    tree := [PyAst.classDef "C" none 1 [PyAst.functionDef "m" none 2 []]] }

/-- C7 counterexample: a file declaring one class `C` with one method
`m` yields three elements — the class, the qualified method `C.m`, and
additionally the same method as an unqualified function element `m`,
because `ast.walk` also visits the method node directly.  The claim
that a method is not additionally yielded as an unqualified function is
false. -/
theorem inventory_method_double_yield :
    (analyze_file classMethodFile.path classMethodFile.tree).map
        (fun e => (e.name, e.element_type)) =
      [("C", "class"), ("C.m", "method"), ("m", "function")] := by
  decide

/-- One-file project whose only class has dunder naming. -/
def dunderClassFile : PyFile :=
  { path := "app.py",
    source := "class __legacy__:\n    pass\n",
    tree := [PyAst.classDef "__legacy__" none 1 []] }

/-- C8 counterexample: the class `__legacy__` has dunder naming (its
name begins and ends with a double underscore), yet its scored
confidence is 0.5 (5 tenths), not 0 — `_create_element_from_class` never sets
`is_dunder`, so the dunder exemption does not apply to class
elements. -/
theorem dunder_class_scored_nonzero :
    strStartsWith "__legacy__" "__" = true ∧
    strEndsWith "__legacy__" "__" = true ∧
    (analyze [dunderClassFile]).map (fun e => (e.name, e.confidence)) =
      [("__legacy__", 5)] := by
  refine ⟨by decide, by decide, by decide⟩

/-- Three-function file in which exactly one function's name contains
"legacy" and no other file exists (so there are no cross-file
references). -/
def legacyThreeFile : PyFile :=
  { path := "app.py",
    source := "def legacy_helper():\n    pass\n\ndef main_fn():\n    helper_two()\n\ndef helper_two():\n    pass\n",
    tree := [PyAst.functionDef "legacy_helper" none 1 [],
             PyAst.functionDef "main_fn" none 4 [],
             PyAst.functionDef "helper_two" none 7 []] }

/-- C5 counterexample: in a 3-function file the "legacy"-named function
with zero cross-file references scores exactly 0.5 (5 tenths) — name
keyword 0.3 plus own-file-only references 0.2, since the declaration
itself is always a self-reference — which is below the claimed 0.6
bound (6 tenths). -/
theorem legacy_three_file_scores_half :
    (analyze [legacyThreeFile]).map (fun e => (e.name, e.confidence)) =
      [("legacy_helper", 5), ("main_fn", 2), ("helper_two", 2)] ∧
    ¬(6 ≤ 5) := by
  refine ⟨by decide, by decide⟩

/-- One-class file whose method `__init__` is a dunder. -/
def dunderMethodFile : PyFile :=
  { path := "app.py",
    source := "class C:\n    def __init__(self):\n        pass\n",
    tree := [PyAst.classDef "C" none 1 [PyAst.functionDef "__init__" none 2 []]] }

/-- C10 counterexample: the dunder method `C.__init__` keeps
`references_count = 0` after a full analysis run — the scorer returns
on the dunder branch before setting it — although the referencing-file
set for its name does contain its own declaring file.  The claim that
every produced element has `references_count ≥ 1` is false. -/
theorem dunder_keeps_zero_references_count :
    (analyze [dunderMethodFile]).map (fun e => (e.name, e.references_count)) =
      [("C", 1), ("C.__init__", 0), ("__init__", 0)] ∧
    referencing_files [dunderMethodFile] "C.__init__" = ["app.py"] := by
  refine ⟨by decide, by decide⟩

theorem mem_insertDesc (x a : CodeElement) (l : List CodeElement) :
    a ∈ insertDesc x l ↔ a = x ∨ a ∈ l := by
  induction l with
  | nil => simp [insertDesc]
  | cons y ys ih =>
    simp only [insertDesc]
    by_cases h : x.confidence < y.confidence
    · rw [if_pos h]
      simp only [List.mem_cons, ih]
      tauto
    · rw [if_neg h]
      simp only [List.mem_cons]

theorem mem_sortByConfidenceDesc (a : CodeElement) (l : List CodeElement) :
    a ∈ sortByConfidenceDesc l ↔ a ∈ l := by
  induction l with
  | nil => simp [sortByConfidenceDesc]
  | cons x xs ih =>
    simp only [sortByConfidenceDesc, mem_insertDesc, ih, List.mem_cons]

theorem mem_analyze (files : List PyFile) (el : CodeElement) :
    el ∈ analyze files ↔
      ∃ e0, e0 ∈ files.flatMap (fun f => analyze_file f.path f.tree) ∧
        el = calculate_confidence files e0 := by
  unfold analyze
  rw [mem_sortByConfidenceDesc]
  simp only [List.mem_map]
  constructor
  · rintro ⟨e0, h1, h2⟩
    exact ⟨e0, h1, h2.symm⟩
  · rintro ⟨e0, h1, h2⟩
    exact ⟨e0, h1, h2.symm⟩

theorem calculate_confidence_name (files : List PyFile) (e : CodeElement) :
    (calculate_confidence files e).name = e.name := by
  unfold calculate_confidence
  split <;> rfl

theorem calculate_confidence_file_path (files : List PyFile)
    (e : CodeElement) :
    (calculate_confidence files e).file_path = e.file_path := by
  unfold calculate_confidence
  split <;> rfl

theorem calculate_confidence_is_dunder (files : List PyFile)
    (e : CodeElement) :
    (calculate_confidence files e).is_dunder = e.is_dunder := by
  unfold calculate_confidence
  split <;> rfl

theorem calculate_confidence_dunder (files : List PyFile) (e : CodeElement)
    (h : e.is_dunder = true) :
    calculate_confidence files e =
      { e with
        confidence := 0
        reasons := ["Dunder method - likely framework hook"] } := by
  unfold calculate_confidence
  rw [if_pos h]

theorem splitDot_ne_nil (l : List Char) : splitDot l ≠ [] := by
  induction l with
  | nil => simp [splitDot]
  | cons ch rest ih =>
    simp only [splitDot]
    rcases hr : splitDot rest with _ | ⟨g, gs⟩
    · exact absurd hr ih
    · show (if ch = '.' then [] :: g :: gs else (ch :: g) :: gs) ≠ []
      by_cases hc : ch = '.'
      · rw [if_pos hc]
        simp
      · rw [if_neg hc]
        simp

theorem splitDot_no_dot (l : List Char) (h : '.' ∉ l) : splitDot l = [l] := by
  induction l with
  | nil => rfl
  | cons ch rest ih =>
    have hch : ch ≠ '.' := by
      intro hc
      exact h (hc ▸ List.mem_cons_self ch rest)
    have hrest : '.' ∉ rest := fun hm => h (List.mem_cons_of_mem ch hm)
    simp only [splitDot, ih hrest]
    rw [if_neg hch]

theorem containsStr_false_not_mem (m : String)
    (h : containsStr m "." = false) : '.' ∉ m.toList := by
  intro hm
  rcases List.append_of_mem hm with ⟨s, t, hst⟩
  have : containsStr m "." = true := by
    rw [containsStr_iff]
    refine ⟨s, t, ?_⟩
    rw [hst, List.append_assoc]
    rfl
  rw [h] at this
  exact Bool.false_ne_true this

theorem baseName_dotfree (m : String) (h : containsStr m "." = false) :
    baseName m = m := by
  unfold baseName
  rw [splitDot_no_dot m.toList (containsStr_false_not_mem m h)]
  rfl

theorem getLastD_irrel {α : Type} (l : List α) (hne : l ≠ []) (d₁ d₂ : α) :
    l.getLastD d₁ = l.getLastD d₂ := by
  cases l with
  | nil => exact absurd rfl hne
  | cons x xs => rw [List.getLastD_cons, List.getLastD_cons]

theorem splitDot_last_append (c m : List Char) :
    (splitDot (c ++ '.' :: m)).getLastD [] = (splitDot m).getLastD [] ∧
      2 ≤ (splitDot (c ++ '.' :: m)).length := by
  induction c with
  | nil =>
    rcases hr : splitDot m with _ | ⟨g, gs⟩
    · exact absurd hr (splitDot_ne_nil m)
    · have hred : splitDot ([] ++ '.' :: m) = [] :: g :: gs := by
        simp [splitDot, hr]
      rw [hred]
      refine ⟨?_, by simp⟩
      rw [List.getLastD_cons]
  | cons ch cs ih =>
    rcases hr : splitDot (cs ++ '.' :: m) with _ | ⟨g, gs⟩
    · exact absurd hr (splitDot_ne_nil _)
    · rw [hr] at ih
      have hgs : gs ≠ [] := by
        intro hgs
        rw [hgs] at ih
        simp at ih
      by_cases hc : ch = '.'
      · have hred : splitDot ((ch :: cs) ++ '.' :: m) = [] :: g :: gs := by
          simp [splitDot, hr, hc]
        rw [hred]
        refine ⟨?_, by simp⟩
        rw [List.getLastD_cons]
        exact ih.1
      · have hred : splitDot ((ch :: cs) ++ '.' :: m) = (ch :: g) :: gs := by
          simp [splitDot, hr, hc]
        rw [hred]
        refine ⟨?_, ?_⟩
        · rw [List.getLastD_cons]
          calc gs.getLastD (ch :: g) = gs.getLastD g :=
                getLastD_irrel gs hgs _ _
            _ = (g :: gs).getLastD [] := (List.getLastD_cons [] g gs).symm
            _ = (splitDot m).getLastD [] := ih.1
        · have hlen : (g :: gs).length = gs.length + 1 := rfl
          have h2 := ih.2
          simp only [List.length_cons] at h2 ⊢
          omega

theorem baseName_qualified (c m : String) (h : containsStr m "." = false) :
    baseName (c ++ "." ++ m) = m := by
  unfold baseName
  have htl : (c ++ "." ++ m).toList = c.toList ++ '.' :: m.toList := by
    show (c.toList ++ ['.']) ++ m.toList = c.toList ++ '.' :: m.toList
    rw [List.append_assoc]
    rfl
  rw [htl, (splitDot_last_append c.toList m.toList).1,
    splitDot_no_dot m.toList (containsStr_false_not_mem m h)]
  rfl

theorem containsStr_append_right (a b : String) :
    containsStr (a ++ b) b = true := by
  rw [containsStr_iff]
  exact ⟨a.toList, [], by rw [List.append_nil]; rfl⟩

theorem walkBFS_supset : ∀ (q : List PyAst), ∀ x ∈ q, x ∈ walkBFS q := by
  intro q
  generalize hsz : astSizeList q = N
  induction N using Nat.strong_induction_on generalizing q with
  | _ N ih =>
    cases q with
    | nil => intro x hx; cases hx
    | cons n rest =>
      intro x hx
      rw [walkBFS_cons]
      rcases List.mem_cons.mp hx with rfl | hx'
      · exact List.mem_cons_self _ _
      · apply List.mem_cons_of_mem
        have hlt : astSizeList (rest ++ childrenOf n) < N := by
          rw [astSizeList_append]
          have hc := childrenOf_size_lt n
          simp only [astSizeList] at hsz
          omega
        exact ih _ hlt _ rfl x (List.mem_append_left _ hx')

theorem walkBFS_closed : ∀ (q : List PyAst), ∀ x ∈ walkBFS q,
    ∀ y ∈ childrenOf x, y ∈ walkBFS q := by
  intro q
  generalize hsz : astSizeList q = N
  induction N using Nat.strong_induction_on generalizing q with
  | _ N ih =>
    cases q with
    | nil => intro x hx; rw [walkBFS_nil] at hx; cases hx
    | cons n rest =>
      intro x hx y hy
      rw [walkBFS_cons] at hx ⊢
      have hlt : astSizeList (rest ++ childrenOf n) < N := by
        rw [astSizeList_append]
        have hc := childrenOf_size_lt n
        simp only [astSizeList] at hsz
        omega
      rcases List.mem_cons.mp hx with rfl | hx'
      · apply List.mem_cons_of_mem
        exact walkBFS_supset _ y (List.mem_append_right _ hy)
      · apply List.mem_cons_of_mem
        exact ih _ hlt _ rfl x hx' y hy

/-- Origin of an inventory element: its file path is the analyzed file,
its reference count is the dataclass default 0, and some walked
function/class node carries its (base) name. -/
theorem analyze_file_origin (p : String) (tree : List PyAst)
    (e0 : CodeElement) (h : e0 ∈ analyze_file p tree) :
    e0.file_path = p ∧ e0.references_count = 0 ∧
    ∃ node ∈ walkBFS tree,
      (match node with
       | .functionDef nm _ _ _ =>
           e0.name = nm ∨ ∃ c : String, e0.name = c ++ "." ++ nm
       | .classDef nm _ _ _ => e0.name = nm
       | .otherStmt _ => False) := by
  unfold analyze_file at h
  rcases List.mem_flatMap.mp h with ⟨node, hnode, hmem⟩
  cases node with
  | functionDef nm doc ln body =>
    simp only [elementsFromNode, List.mem_singleton] at hmem
    subst hmem
    exact ⟨rfl, rfl, .functionDef nm doc ln body, hnode, Or.inl rfl⟩
  | classDef cname cdoc cln body =>
    simp only [elementsFromNode, List.mem_cons] at hmem
    rcases hmem with rfl | hmem'
    · exact ⟨rfl, rfl, .classDef cname cdoc cln body, hnode, rfl⟩
    · rcases List.mem_filterMap.mp hmem' with ⟨item, hitem, hsome⟩
      cases item with
      | functionDef m mdoc mln mbody =>
        simp only [Option.some.injEq] at hsome
        subst hsome
        refine ⟨rfl, rfl, .functionDef m mdoc mln mbody, ?_, Or.inr ⟨cname, rfl⟩⟩
        exact walkBFS_closed tree _ hnode _ hitem
      | classDef a b c d => simp at hsome
      | otherStmt a => simp at hsome
  | otherStmt children =>
    simp [elementsFromNode] at hmem

/-- Concrete-syntax hypothesis: every function or class node the walk
discovers appears in the file's raw text as its `def`/`class`
declaration (a fact of Python's surface syntax for any file that
`ast.parse` accepted). -/
def declsInSource (f : PyFile) : Bool :=
  (walkBFS f.tree).all (fun node =>
    match node with
    | .functionDef nm _ _ _ => containsStr f.source ("def " ++ nm)
    | .classDef nm _ _ _ => containsStr f.source ("class " ++ nm)
    | .otherStmt _ => true)

/-- Python identifiers never contain a dot. -/
def dotFreeNames (f : PyFile) : Bool :=
  (walkBFS f.tree).all (fun node =>
    match node with
    | .functionDef nm _ _ _ => !containsStr nm "."
    | .classDef nm _ _ _ => !containsStr nm "."
    | .otherStmt _ => true)

/-- Base-name self-reference: the base name of every inventory element
of a well-declared file occurs in the file's own source. -/
theorem base_name_in_own_source (f : PyFile) (e0 : CodeElement)
    (hmem : e0 ∈ analyze_file f.path f.tree)
    (hdecl : declsInSource f = true) (hdots : dotFreeNames f = true) :
    containsStr f.source (baseName e0.name) = true := by
  rcases analyze_file_origin f.path f.tree e0 hmem with ⟨_, _, node, hnode, hm⟩
  have hdecl' := List.all_eq_true.mp hdecl node hnode
  have hdots' := List.all_eq_true.mp hdots node hnode
  cases node with
  | functionDef nm doc ln body =>
    simp only [Bool.not_eq_true'] at hdots'
    have hbase : baseName e0.name = nm := by
      rcases hm with h1 | ⟨c, h1⟩
      · rw [h1]
        exact baseName_dotfree nm hdots'
      · rw [h1]
        exact baseName_qualified c nm hdots'
    rw [hbase]
    exact containsStr_trans hdecl' (containsStr_append_right "def " nm)
  | classDef nm doc ln body =>
    simp only [Bool.not_eq_true'] at hdots'
    rw [hm, baseName_dotfree nm hdots']
    exact containsStr_trans hdecl' (containsStr_append_right "class " nm)
  | otherStmt children => cases hm

theorem name_reason_ne (kw : String) :
    ("Name contains '" ++ kw ++ "'" : String) ≠
      "No references found in codebase" := by
  intro h
  have h2 : ("Name contains '" ++ kw ++ "'" : String).toList.get? 1 =
      ("No references found in codebase" : String).toList.get? 1 := by
    rw [h]
  rw [show ("Name contains '" ++ kw ++ "'" : String).toList.get? 1 =
      some 'a' from rfl] at h2
  rw [show ("No references found in codebase" : String).toList.get? 1 =
      some 'o' from rfl] at h2
  simp at h2

theorem doc_reason_ne (kw : String) :
    ("Docstring mentions '" ++ kw ++ "'" : String) ≠
      "No references found in codebase" := by
  intro h
  have h2 : ("Docstring mentions '" ++ kw ++ "'" : String).toList.get? 0 =
      ("No references found in codebase" : String).toList.get? 0 := by
    rw [h]
  rw [show ("Docstring mentions '" ++ kw ++ "'" : String).toList.get? 0 =
      some 'D' from rfl] at h2
  rw [show ("No references found in codebase" : String).toList.get? 0 =
      some 'N' from rfl] at h2
  simp at h2

theorem calc_references_count (files : List PyFile) (e : CodeElement)
    (h : e.is_dunder = false) :
    (calculate_confidence files e).references_count =
      (referencing_files files e.name).length := by
  unfold calculate_confidence
  rw [if_neg (by simp [h] : ¬(e.is_dunder = true))]


theorem calc_no_refs_reason (files : List PyFile) (e : CodeElement)
    (h : e.is_dunder = false)
    (hne : referencing_files files e.name ≠ []) :
    "No references found in codebase" ∉
      (calculate_confidence files e).reasons := by
  unfold calculate_confidence
  rw [if_neg (by simp [h] : ¬(e.is_dunder = true))]
  have hlen : ((referencing_files files e.name).length == 0) = false := by
    simp only [beq_eq_false_iff_ne, ne_eq, List.length_eq_zero]
    exact hne
  intro hbad
  simp only [hlen, Bool.false_eq_true, if_false, List.mem_append] at hbad
  rcases hbad with ((h1 | h2) | h3) | h4
  · rcases hF1 : DEAD_CODE_KEYWORDS.find?
        (fun kw => containsStr (strLower e.name) kw) with _ | kw1
    · rw [hF1] at h1
      simp at h1
    · rw [hF1] at h1
      simp only [List.mem_singleton] at h1
      exact name_reason_ne kw1 h1.symm
  · rcases hd : e.docstring with _ | doc
    · rw [hd] at h2
      simp at h2
    · rw [hd] at h2
      dsimp only at h2
      rcases hF2 : DEAD_CODE_KEYWORDS.find?
          (fun kw => containsStr (strLower doc) kw) with _ | kw2
      · rw [hF2] at h2
        simp at h2
      · rw [hF2] at h2
        simp only [List.mem_singleton] at h2
        exact doc_reason_ne kw2 h2.symm
  · by_cases hc : ((referencing_files files e.name).length == 1 &&
        (referencing_files files e.name).contains e.file_path) = true
    · rw [if_pos hc] at h3
      simp only [List.mem_singleton] at h3
      exact absurd h3 (by decide)
    · rw [if_neg hc] at h3
      simp at h3
  · by_cases hc : (e.is_private &&
        decide ((referencing_files files e.name).length ≤ 1)) = true
    · rw [if_pos hc] at h4
      simp only [List.mem_singleton] at h4
      exact absurd h4 (by decide)
    · rw [if_neg hc] at h4
      simp at h4

/-- C10 amended: the referencing-file set of every discovered element
contains the element's own declaring file (hypotheses: every walked
declaration occurs textually in its file, and names are dot-free —
facts of Python's surface syntax); hence every non-dunder element ends
with `references_count ≥ 1`, while a dunder element keeps the dataclass
default 0 because the scorer returns before setting the field; the
+0.3 "No references found in codebase" contribution is never applied
to any discovered element. -/
theorem self_reference_invariant :
    ∀ (files : List PyFile) (el : CodeElement),
      files.all declsInSource = true →
      files.all dotFreeNames = true →
      el ∈ analyze files →
      el.file_path ∈ referencing_files files el.name ∧
      (el.is_dunder = false → 1 ≤ el.references_count) ∧
      (el.is_dunder = true → el.references_count = 0) ∧
      "No references found in codebase" ∉ el.reasons := by
  intro files el hdecl hdots hmem
  rcases (mem_analyze files el).mp hmem with ⟨e0, he0, rfl⟩
  rcases List.mem_flatMap.mp he0 with ⟨f, hf, hmemf⟩
  have hdeclf := List.all_eq_true.mp hdecl f hf
  have hdotsf := List.all_eq_true.mp hdots f hf
  have hbase := base_name_in_own_source f e0 hmemf hdeclf hdotsf
  rcases analyze_file_origin f.path f.tree e0 hmemf with ⟨hpath, hrc0, _⟩
  have hown : (calculate_confidence files e0).file_path ∈
      referencing_files files (calculate_confidence files e0).name := by
    rw [calculate_confidence_name, calculate_confidence_file_path, hpath]
    unfold referencing_files
    rw [List.mem_dedup]
    exact List.mem_map_of_mem _ (List.mem_filter.mpr ⟨hf, hbase⟩)
  have hne : referencing_files files e0.name ≠ [] := by
    intro hnil
    have := hown
    rw [calculate_confidence_name, calculate_confidence_file_path] at this
    rw [hnil] at this
    cases this
  refine ⟨hown, ?_, ?_, ?_⟩
  · intro hd
    rw [calculate_confidence_is_dunder] at hd
    rw [calc_references_count files e0 hd]
    have : referencing_files files e0.name ≠ [] := hne
    rcases hx : referencing_files files e0.name with _ | ⟨x, xs⟩
    · exact absurd hx this
    · simp
  · intro hd
    rw [calculate_confidence_is_dunder] at hd
    rw [calculate_confidence_dunder files e0 hd]
    exact hrc0
  · by_cases hd : e0.is_dunder = true
    · rw [calculate_confidence_dunder files e0 hd]
      intro hbad
      simp only [List.mem_singleton] at hbad
      exact absurd hbad (by decide)
    · have hd' : e0.is_dunder = false := by
        simpa using hd
      exact calc_no_refs_reason files e0 hd' hne

/-- The scored class element of `dunderMethodFile`. -/
def dunderMethodClassElem : CodeElement :=
  { name := "C", element_type := "class", file_path := "app.py",
    line_number := 1, docstring := none, is_private := false,
    is_dunder := false, references_count := 1, confidence := 2,
    reasons := ["Only referenced in its own file"] }

/-- Witness for `self_reference_invariant` at the concrete one-class
file. -/
theorem self_reference_invariant_witness :
    dunderMethodClassElem.file_path ∈
      referencing_files [dunderMethodFile] dunderMethodClassElem.name ∧
    (dunderMethodClassElem.is_dunder = false →
      1 ≤ dunderMethodClassElem.references_count) ∧
    (dunderMethodClassElem.is_dunder = true →
      dunderMethodClassElem.references_count = 0) ∧
    "No references found in codebase" ∉ dunderMethodClassElem.reasons :=
  self_reference_invariant [dunderMethodFile] dunderMethodClassElem
    (by decide) (by decide) (by decide)

/-- C8 amended: every element the analyzer flags as dunder (functions
and methods whose base name begins and ends with a double underscore)
is scored 0 with the fixed framework-hook reason, regardless of
docstring and reference content; but class elements are never flagged —
`_create_element_from_class` leaves `is_dunder` at its `False` default
even for a dunder-named class — and are scored by the normal
heuristics. -/
theorem dunder_elements_scored_zero :
    (∀ (files : List PyFile) (el : CodeElement),
      el ∈ analyze files → el.is_dunder = true →
      el.confidence = 0 ∧
      el.reasons = ["Dunder method - likely framework hook"]) ∧
    (∀ (name : String) (doc : Option String) (ln : Nat) (p : String),
      (create_element_from_class name doc ln p).is_dunder = false) ∧
    (∀ (name : String) (doc : Option String) (ln : Nat) (p : String)
        (c : Option String),
      (create_element_from_function name doc ln p c).is_dunder =
        (strStartsWith name "__" && strEndsWith name "__")) := by
  refine ⟨?_, fun _ _ _ _ => rfl, fun _ _ _ _ _ => rfl⟩
  intro files el hmem hd
  rcases (mem_analyze files el).mp hmem with ⟨e0, he0, rfl⟩
  rw [calculate_confidence_is_dunder] at hd
  rw [calculate_confidence_dunder files e0 hd]
  exact ⟨rfl, rfl⟩

/-- The scored method element `C.__init__` of `dunderMethodFile`. -/
def dunderInitElem : CodeElement :=
  { name := "C.__init__", element_type := "method", file_path := "app.py",
    line_number := 2, docstring := none, is_private := false,
    is_dunder := true, references_count := 0, confidence := 0,
    reasons := ["Dunder method - likely framework hook"] }

/-- Witness for `dunder_elements_scored_zero` at the concrete dunder
method. -/
theorem dunder_elements_scored_zero_witness :
    dunderInitElem.confidence = 0 ∧
    dunderInitElem.reasons = ["Dunder method - likely framework hook"] :=
  dunder_elements_scored_zero.1 [dunderMethodFile] dunderInitElem
    (by decide) (by decide)


theorem nodup_all_eq_singleton {α : Type} (l : List α) (x : α)
    (hnd : l.Nodup) (hx : x ∈ l) (hall : ∀ a ∈ l, a = x) : l = [x] := by
  cases l with
  | nil => cases hx
  | cons a as =>
    have ha : a = x := hall a (List.mem_cons_self a as)
    subst ha
    cases as with
    | nil => rfl
    | cons b bs =>
      have hb : b = a := hall b (by simp)
      subst hb
      simp at hnd

/-- C5 amended: a non-dunder element whose name contains "legacy"
(matching the scorer's lowercased keyword test) and whose base name
occurs in no other scanned file scores at least 0.5 (5 tenths): 0.3
for the name keyword plus 0.2 for being referenced only in its own
file — the declaration itself always self-references, so the 0.3
no-references bonus that the claimed 0.6 bound would need is
unreachable. -/
theorem legacy_no_crossref_scores_at_least_half :
    ∀ (files : List PyFile) (el : CodeElement),
      files.all declsInSource = true →
      files.all dotFreeNames = true →
      el ∈ analyze files →
      el.is_dunder = false →
      containsStr (strLower el.name) "legacy" = true →
      (∀ f ∈ files, f.path ≠ el.file_path →
        containsStr f.source (baseName el.name) = false) →
      5 ≤ el.confidence := by
  intro files el hdecl hdots hmem hdun hleg hnocross
  rcases (mem_analyze files el).mp hmem with ⟨e0, he0, rfl⟩
  rw [calculate_confidence_is_dunder] at hdun
  rw [calculate_confidence_name] at hleg
  simp only [calculate_confidence_name, calculate_confidence_file_path]
    at hnocross
  rcases List.mem_flatMap.mp he0 with ⟨f, hf, hmemf⟩
  have hbase := base_name_in_own_source f e0 hmemf
    (List.all_eq_true.mp hdecl f hf) (List.all_eq_true.mp hdots f hf)
  rcases analyze_file_origin f.path f.tree e0 hmemf with ⟨hpath, _, _⟩
  have hmemown : e0.file_path ∈ referencing_files files e0.name := by
    unfold referencing_files
    rw [List.mem_dedup, hpath]
    exact List.mem_map_of_mem _ (List.mem_filter.mpr ⟨hf, hbase⟩)
  have hall : ∀ p ∈ referencing_files files e0.name, p = e0.file_path := by
    intro p hp
    unfold referencing_files at hp
    rw [List.mem_dedup] at hp
    rcases List.mem_map.mp hp with ⟨g, hg, rfl⟩
    rcases List.mem_filter.mp hg with ⟨hgf, hgc⟩
    by_contra hne
    have hfalse := hnocross g hgf hne
    rw [hfalse] at hgc
    exact absurd hgc (by decide)
  have hrefs : referencing_files files e0.name = [e0.file_path] :=
    nodup_all_eq_singleton _ _ (List.nodup_dedup _) hmemown hall
  unfold calculate_confidence
  rw [if_neg (by simp [hdun] : ¬(e0.is_dunder = true))]
  rcases hF1 : DEAD_CODE_KEYWORDS.find?
      (fun kw => containsStr (strLower e0.name) kw) with _ | kw1
  · exfalso
    have hnone := List.find?_eq_none.mp hF1 "legacy" (by decide)
    rw [hleg] at hnone
    exact hnone rfl
  · simp only [hF1, hrefs]
    have hcond : ((([e0.file_path] : List String).length == 1) &&
        ([e0.file_path].contains e0.file_path)) = true := by simp
    have h10 : (([e0.file_path] : List String).length == 0) = false := rfl
    simp only [hcond, h10, Bool.false_eq_true, if_false, if_true]
    apply Nat.le_min.mpr
    refine ⟨?_, by omega⟩
    rcases e0.docstring with _ | doc <;>
      [skip;
       rcases DEAD_CODE_KEYWORDS.find?
         (fun kw => containsStr (strLower doc) kw) with _ | kw2] <;>
      by_cases hp : (e0.is_private &&
          decide (([e0.file_path] : List String).length ≤ 1)) = true <;>
      simp only [hp, Bool.not_eq_true, Bool.false_eq_true, if_false,
        if_true] <;>
      simp <;>
      omega

/-- The scored legacy element of `legacyThreeFile`. -/
def legacyElem : CodeElement :=
  { name := "legacy_helper", element_type := "function",
    file_path := "app.py", line_number := 1, docstring := none,
    is_private := false, is_dunder := false, references_count := 1,
    confidence := 5, reasons := ["Name contains 'legacy'",
      "Only referenced in its own file"] }

/-- Witness for `legacy_no_crossref_scores_at_least_half` at the
concrete 3-function file. -/
theorem legacy_scores_at_least_half_witness : 5 ≤ legacyElem.confidence :=
  legacy_no_crossref_scores_at_least_half [legacyThreeFile] legacyElem
    (by decide) (by decide) (by decide) (by decide) (by decide) (by decide)

/-- Shape restriction for the inventory characterization: top-level
function definitions with no nested statements, and classes whose body
holds only leaf methods. -/
def twoLevelNode : PyAst → Bool
  | .functionDef _ _ _ body => body.isEmpty
  | .classDef _ _ _ body =>
      body.all (fun m =>
        match m with
        | .functionDef _ _ _ mb => mb.isEmpty
        | _ => false)
  | .otherStmt _ => false

theorem twoLevel_children_leaf (n : PyAst) (h : twoLevelNode n = true) :
    ∀ y ∈ childrenOf n, childrenOf y = [] := by
  cases n with
  | functionDef nm doc ln body =>
    simp only [twoLevelNode, List.isEmpty_iff] at h
    rw [h]
    intro y hy
    cases hy
  | classDef nm doc ln body =>
    simp only [twoLevelNode] at h
    intro y hy
    have hm := List.all_eq_true.mp h y hy
    cases y with
    | functionDef a b c d =>
      simp only [List.isEmpty_iff] at hm
      exact hm
    | classDef a b c d => simp at hm
    | otherStmt a => simp at hm
  | otherStmt children => simp [twoLevelNode] at h

theorem walk_leaf (q : List PyAst) (h : ∀ x ∈ q, childrenOf x = []) :
    walkBFS q = q := by
  induction q with
  | nil => exact walkBFS_nil
  | cons n rest ih =>
    rw [walkBFS_cons, h n (List.mem_cons_self n rest), List.append_nil]
    rw [ih (fun x hx => h x (List.mem_cons_of_mem n hx))]

theorem walk_two_level (roots : List PyAst) :
    ∀ (ls : List PyAst),
      (∀ x ∈ roots, twoLevelNode x = true) →
      (∀ x ∈ ls, childrenOf x = []) →
      walkBFS (roots ++ ls) = roots ++ ls ++ roots.flatMap childrenOf := by
  induction roots with
  | nil =>
    intro ls hr hl
    simp only [List.nil_append, List.flatMap_nil, List.append_nil]
    exact walk_leaf ls hl
  | cons r rs ih =>
    intro ls hr hl
    have h1 : walkBFS ((r :: rs) ++ ls) =
        r :: walkBFS (rs ++ (ls ++ childrenOf r)) := by
      rw [List.cons_append, walkBFS_cons, List.append_assoc]
    rw [h1]
    have hls' : ∀ x ∈ ls ++ childrenOf r, childrenOf x = [] := by
      intro x hx
      rcases List.mem_append.mp hx with hx1 | hx2
      · exact hl x hx1
      · exact twoLevel_children_leaf r (hr r (List.mem_cons_self r rs)) x hx2
    rw [ih (ls ++ childrenOf r)
      (fun x hx => hr x (List.mem_cons_of_mem r hx)) hls']
    simp [List.flatMap_cons, List.append_assoc]

/-- Inventory of a two-level tree as the amended claim describes it:
per top-level declaration its direct elements (one function element, or
one class element plus one qualified method element per method), and
then — because the walk also visits the method nodes themselves — one
additional unqualified function element per method. -/
def expectedInventory (rel_path : String) (tree : List PyAst) :
    List CodeElement :=
  tree.flatMap (elementsFromNode rel_path) ++
    (tree.flatMap childrenOf).flatMap (elementsFromNode rel_path)

/-- C7 amended: for every parseable file of top-level functions and
classes with leaf methods, the Element Inventory Builder yields exactly
one class element per class, one qualified `Class.method` element per
method, one function element per top-level function — and additionally
one unqualified function element per method, so each method declaration
produces two elements. -/
theorem inventory_two_level :
    ∀ (rel_path : String) (tree : List PyAst),
      tree.all twoLevelNode = true →
      analyze_file rel_path tree = expectedInventory rel_path tree := by
  intro rel_path tree h
  unfold analyze_file expectedInventory
  have h1 : tree ++ ([] : List PyAst) = tree := List.append_nil tree
  have h2 := walk_two_level tree []
    (fun x hx => List.all_eq_true.mp h x hx) (fun x hx => by cases hx)
  rw [h1] at h2
  rw [h2, List.flatMap_append]

/-- Witness for `inventory_two_level` at the concrete one-class
one-method file. -/
theorem inventory_two_level_witness :
    analyze_file classMethodFile.path classMethodFile.tree =
      expectedInventory classMethodFile.path classMethodFile.tree :=
  inventory_two_level classMethodFile.path classMethodFile.tree (by decide)

/-!
## Code remover (`scripts/remove_dead_code.py`)

The remover parses a file, deletes matching function definitions, and
re-serializes it with `ast.unparse`; when `ast.unparse` is unavailable
it falls back to deleting the functions' line ranges from the raw text.

The model covers files of top-level functions in a line-based
mini-grammar faithful to Python's concrete syntax for this fragment:
optional `@name` decorator lines, a `def name():` header, and a body of
`    pass` statements and `    # ...` comment lines, with blank lines
between definitions.  `ast.parse` keeps no comments and records 1-based
`lineno` (the `def` line), `end_lineno` (last body statement) and the
first decorator's line; `ast.unparse` re-renders the tree canonically —
declarations separated by one blank line, comments gone, no trailing
newline (checked against CPython 3.9+ behavior).
-/

/-- Parsed top-level function as the remover reads it. -/
structure RFunc where
  name : String
  decorators : List String
  decorator_lineno : Option Nat
  lineno : Nat
  end_lineno : Nat
  body_passes : Nat
deriving DecidableEq, Repr

/-- Parse a run of decorator lines; returns (decorator names, first
decorator's 1-based line, remaining lines, next line number). -/
def parseDecos : List String → Nat →
    List String × Option Nat × List String × Nat
  | [], ln => ([], none, [], ln)
  | l :: rest, ln =>
    if strStartsWith l "@" then
      let r := parseDecos rest (ln + 1)
      (String.mk (l.toList.drop 1) :: r.1, some ln, r.2.2.1, r.2.2.2)
    else ([], none, l :: rest, ln)

/-- Parse a function body; returns (number of `pass` statements, line
of the last statement, remaining lines, next line number).  Comment
lines are consumed but, as in `ast.parse`, kept nowhere. -/
def parseBody : List String → Nat → Nat × Option Nat × List String × Nat
  | [], ln => (0, none, [], ln)
  | l :: rest, ln =>
    if l = "    pass" then
      let r := parseBody rest (ln + 1)
      (r.1 + 1, some (r.2.1.getD ln), r.2.2.1, r.2.2.2)
    else if strStartsWith l "    #" then
      let r := parseBody rest (ln + 1)
      (r.1, r.2.1, r.2.2.1, r.2.2.2)
    else (0, none, l :: rest, ln)

/-- Fuel-indexed top-level parser; the fuel (one unit per consumed
line) only serves as a structural termination measure. -/
def parseTopAux : Nat → List String → Nat → Option (List RFunc)
  | _, [], _ => some []
  | 0, _ :: _, _ => none
  | fuel + 1, l :: rest, ln =>
    if l = "" then parseTopAux fuel rest (ln + 1)
    else
      let d := parseDecos (l :: rest) ln
      match d.2.2.1 with
      | [] => none
      | dl :: drest =>
        if strStartsWith dl "def " && strEndsWith dl "():" then
          let b := parseBody drest (d.2.2.2 + 1)
          if b.1 == 0 then none
          else
            match parseTopAux fuel b.2.2.1 b.2.2.2 with
            | some fs => some
                ({ name := String.mk
                     ((dl.toList.drop 4).take (dl.toList.length - 7)),
                   decorators := d.1,
                   decorator_lineno := d.2.1,
                   lineno := d.2.2.2,
                   end_lineno := b.2.1.getD d.2.2.2,
                   body_passes := b.1 } :: fs)
            | none => none
        else none

/-- Model of `ast.parse` on the mini-grammar (1-based line numbers). -/
def parseFile (lines : List String) : Option (List RFunc) :=
  parseTopAux lines.length lines 1

/-- Concatenation with a separator (kernel-computable equivalent of
`String.intercalate`). -/
def joinWith (sep : String) : List String → String
  | [] => ""
  | [x] => x
  | x :: y :: rest => x ++ sep ++ joinWith sep (y :: rest)

/-- Split at a separator character (kernel-computable model of reading
the written file back as lines). -/
def splitOnChar (c : Char) : List Char → List (List Char)
  | [] => [[]]
  | ch :: rest =>
    match splitOnChar c rest with
    | [] => [[]]
    | g :: gs => if ch = c then [] :: g :: gs else (ch :: g) :: gs

/-- Lines of a string. -/
def linesOf (s : String) : List String :=
  (splitOnChar '\n' s.toList).map String.mk

/-- Model of `ast.unparse` for one function definition. -/
def unparse_func (f : RFunc) : String :=
  joinWith "\n" (f.decorators.map (fun d => "@" ++ d) ++
    ("def " ++ f.name ++ "():") :: List.replicate f.body_passes "    pass")

/-- Model of `ast.unparse` for a module: definitions separated by one
blank line, comments absent, no trailing newline. -/
def unparse_file (tree : List RFunc) : String :=
  joinWith "\n\n" (tree.map unparse_func)

/-- Embedding of `FunctionRemover` (remove_dead_code.py, lines 21-38):
drop the matching definitions, recording the removed names in visit
order. -/
def FunctionRemover_run (tree : List RFunc)
    (functions_to_remove : List String) : List RFunc × List String :=
  (tree.filter (fun fn => !(functions_to_remove.contains fn.name)),
   (tree.filter (fun fn => functions_to_remove.contains fn.name)).map
     (·.name))

/-- Embedding of `remove_functions_from_file` (remove_dead_code.py,
lines 41-87), primary path: parse, transform, re-serialize with
`ast.unparse`, write back.  A parse error is caught and leaves the file
untouched; an empty removal list or dry-run also writes nothing.
Returns (removed names, resulting file lines). -/
def remove_functions_from_file (source_lines : List String)
    (function_names : List String) (dry_run : Bool) :
    List String × List String :=
  match parseFile source_lines with
  | none => ([], source_lines)
  | some tree =>
    let r := FunctionRemover_run tree function_names
    if r.2.isEmpty then ([], source_lines)
    else if dry_run then (r.2, source_lines)
    else (r.2, linesOf (unparse_file r.1))

/-- Line ranges of the matching definitions (remove_dead_code.py, lines
104-114): 0-based start at the declaration — or at the first decorator
when present — through `end_lineno` (exclusive after the 0-based
shift). -/
def ranges_to_remove (tree : List RFunc) (function_names : List String) :
    List (Nat × Nat) :=
  (tree.filter (fun fn => function_names.contains fn.name)).map (fun fn =>
    ((match fn.decorator_lineno with
      | some d => d - 1
      | none => fn.lineno - 1), fn.end_lineno))

/-- Descending lexicographic order on ranges. -/
def pairLt (p q : Nat × Nat) : Prop :=
  p.1 < q.1 ∨ (p.1 = q.1 ∧ p.2 < q.2)

instance (p q : Nat × Nat) : Decidable (pairLt p q) := by
  unfold pairLt
  infer_instance

/-- Stable insertion for Python's `sort(reverse=True)` on ranges. -/
def insertPairDesc (p : Nat × Nat) :
    List (Nat × Nat) → List (Nat × Nat)
  | [] => [p]
  | q :: qs =>
    if pairLt p q then q :: insertPairDesc p qs else p :: q :: qs

/-- Python's `ranges_to_remove.sort(reverse=True)`. -/
def sortPairsDesc : List (Nat × Nat) → List (Nat × Nat)
  | [] => []
  | p :: ps => insertPairDesc p (sortPairsDesc ps)

/-- Deleting the sorted ranges bottom-up (`del lines[start:end]`). -/
def delRanges (lines : List String) (ranges : List (Nat × Nat)) :
    List String :=
  ranges.foldl (fun ls r => ls.take r.1 ++ ls.drop r.2) lines

/-- Embedding of the fallback `remove_functions_by_line`
(remove_dead_code.py, lines 90-123): re-parse the source, compute the
matching ranges, delete them in reverse order. -/
def remove_functions_by_line (source_lines : List String)
    (function_names : List String) : Option (List String) :=
  (parseFile source_lines).map (fun tree =>
    delRanges source_lines (sortPairsDesc
      (ranges_to_remove tree function_names)))

/-- Contiguous block of lines `[s, e)` (0-based). -/
def window {α : Type} (l : List α) (s e : Nat) : List α :=
  (l.drop s).take (e - s)

/-- Two-function demo file: `f`, then `g` whose body carries a comment. -/
def twoFuncSrc : List String :=
  ["def f():", "    pass", "", "def g():", "    # note", "    pass"]

/-- C2 counterexample: removing only `f` through the primary
(`ast.unparse`) path re-serializes the whole file, so `g`'s comment
line vanishes — `g`'s source text (lines 4-6 of the input) is not
byte-identical in the output under any line shift, since the output no
longer contains the comment line at all. -/
theorem remover_unparse_drops_comment :
    remove_functions_from_file twoFuncSrc ["f"] false =
      (["f"], ["def g():", "    pass"]) ∧
    window twoFuncSrc 3 6 = ["def g():", "    # note", "    pass"] ∧
    "    # note" ∉
      (remove_functions_from_file twoFuncSrc ["f"] false).2 := by
  refine ⟨by decide, by decide, by decide⟩

theorem window_delRange_before {α : Type} (l : List α) (s e s2 e2 : Nat)
    (hsl : s ≤ l.length) (h2 : e2 ≤ s) (h3 : s2 ≤ e2) :
    window (l.take s ++ l.drop e) s2 e2 = window l s2 e2 := by
  unfold window
  have hlen : (l.take s).length = s := by
    simp [List.length_take]
    omega
  rw [List.drop_append_of_le_length (by omega)]
  rw [List.take_append_of_le_length (by
    simp only [List.length_drop, hlen]
    omega)]
  rw [List.drop_take, List.take_take]
  have hmin : min (e2 - s2) (s - s2) = e2 - s2 := by omega
  rw [hmin]

theorem window_delRange_after {α : Type} (l : List α) (s e s2 e2 : Nat)
    (hse : s ≤ e) (hsl : s ≤ l.length) (h2 : e ≤ s2) :
    window (l.take s ++ l.drop e) (s2 - (e - s)) (e2 - (e - s)) =
      window l s2 e2 := by
  unfold window
  have hlen : (l.take s).length = s := by
    simp [List.length_take]
    omega
  have hidx : s2 - (e - s) = (l.take s).length + (s2 - e) := by omega
  rw [hidx, List.drop_append, List.drop_drop, hlen]
  have hidx2 : e + (s2 - e) = s2 := by omega
  rw [hidx2]
  have hidx3 : e2 - (e - s) - (s + (s2 - e)) = e2 - s2 := by omega
  rw [hidx3]

/-- C2 amended: the structural path preserves `g` exactly as a tree
element (it is re-rendered canonically, so comments and blank-line
formatting inside `g` are lost — the counterexample above); only the
line-based fallback leaves `g`'s raw lines byte-identical except for
line-number shifts: deleting `f`'s range keeps every block before it at
its position and shifts every block after it up by the deleted line
count, unchanged. -/
theorem remover_preserves_unrelated :
    (∀ (tree : List RFunc) (names : List String) (g : RFunc),
      g ∈ tree → names.contains g.name = false →
      g ∈ (FunctionRemover_run tree names).1) ∧
    (∀ (lines : List String) (names : List String) (tree : List RFunc)
        (s e : Nat),
      parseFile lines = some tree →
      ranges_to_remove tree names = [(s, e)] →
      s ≤ e → e ≤ lines.length →
      remove_functions_by_line lines names =
        some (lines.take s ++ lines.drop e) ∧
      (∀ (s2 e2 : Nat), s2 ≤ e2 →
        (e2 ≤ s → window (lines.take s ++ lines.drop e) s2 e2 =
          window lines s2 e2) ∧
        (e ≤ s2 → window (lines.take s ++ lines.drop e) (s2 - (e - s))
            (e2 - (e - s)) = window lines s2 e2))) := by
  constructor
  · intro tree names g hg hng
    unfold FunctionRemover_run
    apply List.mem_filter.mpr
    exact ⟨hg, by rw [hng]; rfl⟩
  · intro lines names tree s e hparse hranges hse hel
    have hres : remove_functions_by_line lines names =
        some (lines.take s ++ lines.drop e) := by
      unfold remove_functions_by_line
      rw [hparse]
      show some (delRanges lines (sortPairsDesc
        (ranges_to_remove tree names))) = _
      rw [hranges]
      rfl
    refine ⟨hres, ?_⟩
    intro s2 e2 h23
    constructor
    · intro hbefore
      exact window_delRange_before lines s e s2 e2 (by omega) hbefore h23
    · intro hafter
      exact window_delRange_after lines s e s2 e2 hse (by omega) hafter

/-- Witness for `remover_preserves_unrelated`: the parsed `g` of the
demo file survives the structural removal of `f`, and the fallback on
the same file deletes exactly `f`'s two lines, leaving `g`'s block
(shifted up by two lines) byte-identical. -/
theorem remover_preserves_unrelated_witness :
    ({ name := "g", decorators := [], decorator_lineno := none,
       lineno := 4, end_lineno := 6, body_passes := 1 } : RFunc) ∈
      (FunctionRemover_run
        [{ name := "f", decorators := [], decorator_lineno := none,
           lineno := 1, end_lineno := 2, body_passes := 1 },
         { name := "g", decorators := [], decorator_lineno := none,
           lineno := 4, end_lineno := 6, body_passes := 1 }] ["f"]).1 ∧
    remove_functions_by_line twoFuncSrc ["f"] =
      some (twoFuncSrc.take 0 ++ twoFuncSrc.drop 2) ∧
    window (twoFuncSrc.take 0 ++ twoFuncSrc.drop 2) (3 - 2) (6 - 2) =
      window twoFuncSrc 3 6 :=
  ⟨remover_preserves_unrelated.1 _ ["f"] _ (by decide) (by decide),
   (remover_preserves_unrelated.2 twoFuncSrc ["f"]
      [{ name := "f", decorators := [], decorator_lineno := none,
         lineno := 1, end_lineno := 2, body_passes := 1 },
       { name := "g", decorators := [], decorator_lineno := none,
         lineno := 4, end_lineno := 6, body_passes := 1 }] 0 2
      (by decide) (by decide) (by decide) (by decide)).1,
   ((remover_preserves_unrelated.2 twoFuncSrc ["f"]
      [{ name := "f", decorators := [], decorator_lineno := none,
         lineno := 1, end_lineno := 2, body_passes := 1 },
       { name := "g", decorators := [], decorator_lineno := none,
         lineno := 4, end_lineno := 6, body_passes := 1 }] 0 2
      (by decide) (by decide) (by decide) (by decide)).2 3 6
      (by decide)).2 (by decide)⟩
